import Mathlib

/-!
Verification of the mjxgui expression/cursor core
(src/modules/expression-backend.js and src/modules/cursor.js).

Shallow embedding conventions:

* JavaScript objects are modelled as immutable values; mutation becomes
  explicit state passing.
* The `position` and `child` cursor addresses are JS numbers that are always
  multiples of 0.5 in the running system.  They are represented exactly as
  `Int`s holding TWICE the JS value ("doubled addressing"): JS `-0.5` is `-1`,
  JS `k` is `2*k`, JS `k + 0.5` is `2*k + 1`.  `Math.floor`/`Math.ceil` of an
  address become `floorIdx`/`ceilIdx` below (which return the undoubled index).
* JS object identity (`===`, `indexOf` on `this.component` / `this.block`)
  is modelled by paths (`CPath`) into the tree: in the live system every
  Block/Component object occurs exactly once in the tree, so an identity
  search finds exactly the index recorded in the cursor's path.
* `Array.prototype.splice` based insertion/removal is modelled by
  `jsInsert`/`jsRemove`, including the index clamping splice performs.
* Places where the JS code would throw a TypeError (dereferencing
  `undefined`) are modelled as returning the state unchanged; each such spot
  is marked with a comment.  They are unreachable from well-formed states.
* `String.prototype.trim` is modelled by `jsTrim` (ASCII whitespace), written
  by structural recursion so that it evaluates inside the kernel.
-/

set_option maxHeartbeats 1000000

namespace Mjx

/-- ASCII whitespace, the fragment of the JS `trim` character class that can
actually occur in generated LaTeX. -/
def isWS (c : Char) : Bool :=
  c = ' ' || c = '\t' || c = '\n' || c = '\r'

def dropWS : List Char → List Char
  | [] => []
  | c :: r => if isWS c then dropWS r else c :: r

/-- Model of JS `String.prototype.trim`: strip leading and trailing
whitespace. -/
def jsTrim (s : String) : String :=
  ⟨(dropWS (dropWS s.data.reverse).reverse)⟩

/-- The fixed LaTeX template of a (non-leaf) Component subclass.  The source
has ~35 such subclasses differing only in the template string; the claims
need a one-block template (`Sqrt`), the caret-serialization decoration
(`FrameBox`), a two-block template (`TemplateTwoBlockContinuousComponent`,
e.g. `dfrac`), and `MatrixComponent`. -/
inductive CKind where
  | sqrt : CKind
  | frameBox : CKind
  | frac2 (latexData : String) : CKind
  | matrix (rows cols : Nat) : CKind
deriving DecidableEq

mutual
/-- A Component (base class `Component`): either the leaf `MJXGUISymbol`
(no blocks, literal LaTeX), the leaf `TextComponent` (one block holding a
text run), or a non-leaf container with a template kind, a `color` and a
`blocks` array. -/
inductive Component where
  | symbol (latexData : String) : Component
  | textC (children : List Child) : Component
  | container (kind : CKind) (color : String) (blocks : List Slot) : Component

/-- One entry of a Component's `blocks` array.  Normally a `Block` (a list of
children); during `toDisplayLatex` the source temporarily places a whole
`FrameBox` *Component* into the blocks array (`addBlock(frame, i)`), relying
on duck typing — that transient state is `framed`. -/
inductive Slot where
  | blk (children : List Child) : Slot
  | framed (frame : Component) : Slot

/-- An element of a Block's `children` array: a string or a Component. -/
inductive Child where
  | str (s : String) : Child
  | comp (c : Component) : Child
end

/-- The `blocks` array of a component (`MJXGUISymbol` has none;
`TextComponent` has exactly one, created in its constructor). -/
def Component.blocks : Component → List Slot
  | .symbol _ => []
  | .textC ch => [.blk ch]
  | .container _ _ bs => bs

/-- `component instanceof TextComponent || component instanceof MJXGUISymbol`. -/
def Component.isLeaf : Component → Bool
  | .symbol _ => true
  | .textC _ => true
  | .container _ _ _ => false

/-- The leaf test applied to a possibly-`undefined` JS value:
`undefined instanceof C` is `false`. -/
def isLeafO : Option Component → Bool
  | some c => c.isLeaf
  | none => false

/-- `Component.isEmpty()`: no block has any children.  (On a `framed` slot the
JS code would read `.children` of a Component, yielding `undefined` and then
crashing on `.length`; `framed` slots never exist outside `toDisplayLatex`,
we treat them as empty.) -/
def Slot.childrenOf : Slot → List Child
  | .blk ch => ch
  | .framed _ => []

def Component.isEmptyC (c : Component) : Bool :=
  c.blocks.all (fun s => s.childrenOf.isEmpty)

/-- `Block.toLatex()` on an empty block:
`` `\color{${this.parent.color}}{\boxed{&#8200;}}` ``. -/
def placeholder (color : String) : String :=
  "\\color\x7b" ++ color ++ "\x7d\x7b\\boxed\x7b&#8200;\x7d\x7d"

/-- The row/column separator logic of `MatrixComponent.toLatex()`: after the
cell at row `i`, column `j` (sequential index `i*cols + j`) the source emits
`" & "` unless `j === cols-1`, in which case it emits `" \\ "` unless also
`i === rows-1`. -/
def matrixJoin (rows cols : Nat) (rs : List String) : String :=
  String.join ((List.range rows).map (fun i =>
    String.join ((List.range cols).map (fun j =>
      rs.getD (i * cols + j) "" ++
        (if j = cols - 1 then (if i = rows - 1 then "" else " \\\\ ") else " & ")))))

/-- Per-subclass `toLatex` template, applied to the already-rendered blocks.
`getD _ ""` stands for positions where the JS template would read a
nonexistent block (impossible for constructor-built components). -/
def kindLatex : CKind → List String → String
  | .sqrt, rs => "\\sqrt\x7b" ++ rs.getD 0 "" ++ "\x7d"
  | .frameBox, rs => "\\boxed\x7b" ++ rs.getD 0 "" ++ "\x7d"
  | .frac2 latexData, rs =>
      "\\" ++ latexData ++ "\x7b" ++ rs.getD 0 "" ++ "\x7d\x7b" ++ rs.getD 1 "" ++ "\x7d"
  | .matrix rows cols, rs =>
      "\\begin\x7bmatrix\x7d" ++ matrixJoin rows cols rs ++ "\\end\x7bmatrix\x7d"

mutual
/-- `Component.toLatex()` and its overrides.  `MJXGUISymbol.toLatex()` is
`this.latexData + ' '`; `TextComponent.toLatex()` is `this.blocks[0].toLatex()`
(its `color` field is JS `null`, stringified to `"null"` should the
placeholder template ever be instantiated for it). -/
def compLatex : Component → String
  | .symbol latexData => latexData ++ " "
  | .textC children => blockLatex "null" children
  | .container k color blocks => kindLatex k (slotsLatex color blocks)

def slotsLatex (color : String) : List Slot → List String
  | [] => []
  | s :: rest => slotLatex color s :: slotsLatex color rest

/-- Rendering one entry of a `blocks` array: a real Block renders via
`Block.toLatex()` with the owning component's color; a transient `framed`
slot renders the FrameBox component it holds. -/
def slotLatex (color : String) : Slot → String
  | .blk children => blockLatex color children
  | .framed f => compLatex f

/-- `Block.toLatex()`: the colored boxed placeholder if the block is empty,
otherwise the concatenation of the children's markup (strings verbatim,
components recursively), trimmed. -/
def blockLatex (color : String) : List Child → String
  | [] => placeholder color
  | c :: rest => jsTrim (childLatex c ++ childrenLatex rest)

def childrenLatex : List Child → String
  | [] => ""
  | c :: rest => childLatex c ++ childrenLatex rest

def childLatex : Child → String
  | .str s => s
  | .comp c => compLatex c
end

/-- `Expression.toLatex()`: concatenate the components' markup and trim. -/
def componentsLatex : List Component → String
  | [] => ""
  | c :: rest => compLatex c ++ componentsLatex rest

def exprLatex (cs : List Component) : String :=
  jsTrim (componentsLatex cs)

/-! Constructor models (the `Colors.getNew()` random color is passed in as a
parameter; `MatrixComponent` parses its `latexData` as `"RxC"`, here the two
numbers are passed directly). -/

def newTextComponent (t : String) : Component := .textC [.str t]

def newSqrt (color : String) : Component := .container .sqrt color [.blk []]

def newFrac (color latexData : String) : Component :=
  .container (.frac2 latexData) color [.blk [], .blk []]

def newMatrix (color : String) (rows cols : Nat) : Component :=
  .container (.matrix rows cols) color (List.replicate (rows * cols) (.blk []))

/-!  Claims C7, C8, C9: the markup protocol. -/

/-- Modelled from the spec: the in-order concatenation of a block's
children's markup — each string child contributing itself verbatim and each
Component child contributing its recursive `toLatex()`, with no other
characters added or removed. -/
def specBlockConcat : List Child → String
  | [] => ""
  | .str s :: rest => s ++ specBlockConcat rest
  | .comp c :: rest => compLatex c ++ specBlockConcat rest

lemma specBlockConcat_eq_childrenLatex (ch : List Child) :
    specBlockConcat ch = childrenLatex ch := by
  induction ch with
  | nil => rfl
  | cons c rest ih => cases c <;> simp [specBlockConcat, childrenLatex, childLatex, ih]

/-- Strings separated by a separator, nothing else: the spec's
"cells separated by ` & ` within rows / ` \\ ` between rows". -/
def sepJoin (sep : String) : List String → String
  | [] => ""
  | [a] => a
  | a :: b :: rest => a ++ sep ++ sepJoin sep (b :: rest)

lemma foldl_append_shift (l : List String) (x : String) :
    l.foldl (· ++ ·) x = x ++ l.foldl (· ++ ·) "" := by
  induction l generalizing x with
  | nil => simp
  | cons a l ih =>
      simp only [List.foldl_cons]
      rw [ih (x ++ a), ih ("" ++ a)]
      simp [String.append_assoc]

lemma join_cons (a : String) (l : List String) :
    String.join (a :: l) = a ++ String.join l := by
  simp only [String.join, List.foldl_cons]
  rw [foldl_append_shift l ("" ++ a)]
  simp

lemma join_map_sep (sep tail : String) :
    ∀ (l : List String) (x : String),
    String.join (l.map (fun s => s ++ sep) ++ [x ++ tail]) =
    sepJoin sep (l ++ [x]) ++ tail := by
  intro l
  induction l with
  | nil => intro x; simp [join_cons, sepJoin, String.join]
  | cons a l ih =>
      intro x
      simp only [List.map_cons, List.cons_append, join_cons, ih]
      cases l with
      | nil => simp [sepJoin, String.append_assoc]
      | cons b l2 => simp [sepJoin, String.append_assoc]

/-- The trailing-separator pattern of the matrix loops: emitting
`f j ++ sep` for every `j` except the last, which gets `tail`, equals the
separator-joined cells followed by `tail`. -/
lemma joinTail (sep tail : String) (n : Nat) (f : Nat → String) (h : 1 ≤ n) :
    String.join ((List.range n).map (fun j => f j ++ (if j = n - 1 then tail else sep))) =
    sepJoin sep ((List.range n).map f) ++ tail := by
  obtain ⟨m, rfl⟩ : ∃ m, n = m + 1 := ⟨n - 1, by omega⟩
  rw [List.range_succ]
  simp only [List.map_append, List.map_cons, List.map_nil]
  have h1 : (List.range m).map (fun j => f j ++ if j = m + 1 - 1 then tail else sep) =
      ((List.range m).map f).map (fun s => s ++ sep) := by
    rw [List.map_map]
    apply List.map_congr_left
    intro j hj
    have hlt : j < m := List.mem_range.mp hj
    have hne : j ≠ m := by omega
    simp [hne]
  have h2 : (if m = m + 1 - 1 then tail else sep) = tail := by simp
  rw [h1, h2]
  exact join_map_sep sep tail ((List.range m).map f) (f m)

lemma matrixJoin_eq_sepJoin (rows cols : Nat) (rs : List String)
    (hr : 1 ≤ rows) (hc : 1 ≤ cols) :
    matrixJoin rows cols rs =
    sepJoin " \\\\ " ((List.range rows).map (fun i =>
      sepJoin " & " ((List.range cols).map (fun j => rs.getD (i * cols + j) "")))) := by
  unfold matrixJoin
  have hrow : ∀ i, String.join ((List.range cols).map (fun j =>
      rs.getD (i * cols + j) "" ++
        (if j = cols - 1 then (if i = rows - 1 then "" else " \\\\ ") else " & "))) =
      sepJoin " & " ((List.range cols).map (fun j => rs.getD (i * cols + j) "")) ++
        (if i = rows - 1 then "" else " \\\\ ") := by
    intro i
    exact joinTail " & " (if i = rows - 1 then "" else " \\\\ ") cols
      (fun j => rs.getD (i * cols + j) "") hc
  calc String.join ((List.range rows).map (fun i =>
        String.join ((List.range cols).map (fun j =>
          rs.getD (i * cols + j) "" ++
            (if j = cols - 1 then (if i = rows - 1 then "" else " \\\\ ") else " & ")))))
      = String.join ((List.range rows).map (fun i =>
          sepJoin " & " ((List.range cols).map (fun j => rs.getD (i * cols + j) "")) ++
            (if i = rows - 1 then "" else " \\\\ "))) := by
        congr 1
        exact List.map_congr_left (fun i _ => hrow i)
    _ = sepJoin " \\\\ " ((List.range rows).map (fun i =>
          sepJoin " & " ((List.range cols).map (fun j => rs.getD (i * cols + j) "")))) ++ "" := by
        exact joinTail " \\\\ " "" rows _ hr
    _ = _ := by simp

/-- C7 (counterexample): `Block.toLatex()` does not return exactly the
in-order concatenation of its children's markup.  For the one-child block
holding the symbol `\alpha`, the concatenation is `"\alpha "` (the symbol's
template appends a trailing space), but `toLatex` trims it to `"\alpha"`. -/
theorem C7_counterexample :
    blockLatex "red" [.comp (.symbol "\\alpha")] ≠
      specBlockConcat [.comp (.symbol "\\alpha")] := by
  decide

/-- C7 (amended): for every Block with at least one child, `Block.toLatex()`
returns the in-order concatenation of its children's markup — each string
child contributing itself verbatim and each Component child contributing its
recursive `toLatex()` — with no characters added or removed other than
stripping leading and trailing whitespace (JS `trim()`). -/
theorem C7_blockLatex_trimmed_concat (color : String) (c : Child) (rest : List Child) :
    blockLatex color (c :: rest) = jsTrim (specBlockConcat (c :: rest)) := by
  simp [blockLatex, specBlockConcat_eq_childrenLatex, childrenLatex]

/-- C8: an empty Block renders as the colored boxed placeholder glyph built
from the owning component's color, never as the empty string; and a freshly
constructed two-block component (here the `dfrac`-style
`TemplateTwoBlockContinuousComponent`) renders each of its two empty blocks
as that placeholder. -/
theorem C8_empty_block_placeholder (color latexData : String) :
    blockLatex color [] = placeholder color ∧
    blockLatex color [] ≠ "" ∧
    slotsLatex color (newFrac color latexData).blocks =
      [placeholder color, placeholder color] := by
  refine ⟨rfl, ?_, rfl⟩
  intro h
  have h2 := congrArg String.length h
  rw [blockLatex, placeholder] at h2
  simp [String.length_append] at h2
  exact absurd h2.1.1 (by decide)

/-- C9: `MatrixComponent.toLatex()` emits `\begin{matrix}`, then every cell
block in row-major order indexed by `i*cols+j`, with `" & "` after each cell
except the last of its row and `" \\ "` after the last cell of each row
except the last row, then `\end{matrix}`; and the concrete 2x2 all-empty
matrix renders as the four placeholder cells with exactly those separators. -/
theorem C9_matrix_latex :
    (∀ (rows cols : Nat) (color : String) (bs : List Slot), 1 ≤ rows → 1 ≤ cols →
      compLatex (.container (.matrix rows cols) color bs) =
        "\\begin\x7bmatrix\x7d" ++
        sepJoin " \\\\ " ((List.range rows).map (fun i =>
          sepJoin " & " ((List.range cols).map (fun j =>
            (slotsLatex color bs).getD (i * cols + j) "")))) ++
        "\\end\x7bmatrix\x7d") ∧
    compLatex (newMatrix "red" 2 2) =
      "\\begin\x7bmatrix\x7d" ++ placeholder "red" ++ " & " ++ placeholder "red" ++
      " \\\\ " ++ placeholder "red" ++ " & " ++ placeholder "red" ++
      "\\end\x7bmatrix\x7d" := by
  constructor
  · intro rows cols color bs hr hc
    show kindLatex (.matrix rows cols) (slotsLatex color bs) = _
    rw [kindLatex]
    rw [matrixJoin_eq_sepJoin rows cols (slotsLatex color bs) hr hc]
  · decide

/-- C9 witness: the general separator layout instantiated at the concrete
2x2 matrix with a singleton slot list. -/
theorem C9_witness :
    compLatex (.container (.matrix 1 1) "blue" [.blk []]) =
      "\\begin\x7bmatrix\x7d" ++
      sepJoin " \\\\ " ((List.range 1).map (fun i =>
        sepJoin " & " ((List.range 1).map (fun j =>
          (slotsLatex "blue" [Slot.blk []]).getD (i * 1 + j) "")))) ++
      "\\end\x7bmatrix\x7d" :=
  C9_matrix_latex.1 1 1 "blue" [.blk []] (by decide) (by decide)

/-!  The cursor state machine (src/modules/cursor.js).

The JS `position` and `child` fields hold half-integers; they are stored
doubled (see the header).  `Math.floor`/`Math.ceil` of an address yield an
(undoubled) element index. -/

/-- `Math.floor(a/2)` for a doubled address `a` (exact: Int.ediv floors). -/
def floorIdx (a : Int) : Int := a / 2

/-- `Math.ceil(a/2)` for a doubled address `a`. -/
def ceilIdx (a : Int) : Int := (a + 1) / 2

/-- JS array read `l[i]` with an (undoubled) integer index: `undefined`
(here `none`) when out of range or negative. -/
def idxGet (l : List α) (i : Int) : Option α :=
  if 0 ≤ i then l[i.toNat]? else none

/-- JS array read `components[this.position]` where `this.position` is a raw
doubled address: a fractional index reads `undefined`. -/
def compAt (l : List α) (a : Int) : Option α :=
  if a % 2 = 0 then idxGet l (a / 2) else none

/-- The index at which `Array.prototype.splice(start, ...)` actually
operates: negative `start` counts from the end (clamped at 0), large `start`
is clamped to the length. -/
def jsIdx (len : Nat) (i : Int) : Nat :=
  if i < 0 then ((len : Int) + i).toNat else min i.toNat len

/-- `splice(i, 0, a)`: positional insertion with splice's index clamping. -/
def jsInsert (l : List α) (i : Int) (a : α) : List α :=
  l.take (jsIdx l.length i) ++ a :: l.drop (jsIdx l.length i)

/-- `splice(i, 1)`: positional removal with splice's index clamping. -/
def jsRemove (l : List α) (i : Int) : List α :=
  l.take (jsIdx l.length i) ++ l.drop (jsIdx l.length i + 1)

/-- In-place update of one list element (no-op out of range). -/
def listModify (l : List α) (i : Nat) (f : α → α) : List α :=
  match l[i]? with
  | some a => l.set i (f a)
  | none => l

/-- The address of a Component object in the tree, standing in for a JS
object reference: `top i` is `expression.components[i]`; `sub q b j` is
child `j` of block `b` of the component addressed by `q`.  Object identity
(`===`, `indexOf`) is decided by comparing recorded addresses, which is
faithful because every live object occurs exactly once in the tree. -/
inductive CPath where
  | top (i : Nat) : CPath
  | sub (q : CPath) (b j : Nat) : CPath
deriving DecidableEq

/-- The index of the top-level component an address lies under. -/
def CPath.topIdx : CPath → Nat
  | .top i => i
  | .sub q _ _ => q.topIdx

/-- Dereference a component address. -/
def getCompAt (cs : List Component) : CPath → Option Component
  | .top i => cs[i]?
  | .sub q b j =>
      match getCompAt cs q with
      | some parent =>
          match parent.blocks[b]? with
          | some (.blk ch) =>
              match ch[j]? with
              | some (.comp c) => some c
              | _ => none
          | _ => none
      | none => none

/-- Replace block `b`'s children through `f` (identity on a missing block
or, for the transient `framed` state, a non-Block slot). -/
def Component.modifyBlk : Component → Nat → (List Child → List Child) → Component
  | .container k col bs, b, f =>
      .container k col (listModify bs b (fun s =>
        match s with
        | .blk ch => .blk (f ch)
        | s => s))
  | .textC ch, b, f => if b = 0 then .textC (f ch) else .textC ch
  | .symbol l, _, _ => .symbol l

/-- Replace child `j` of block `b` with the component `c`. -/
def Component.setChild (par : Component) (b j : Nat) (c : Component) : Component :=
  par.modifyBlk b (fun ch => listModify ch j (fun _ => Child.comp c))

/-- Overwrite the component a path points at (rebuilding the spine). -/
def setCompAt (cs : List Component) : CPath → Component → List Component
  | .top i, c => cs.set i c
  | .sub q b j, c =>
      match getCompAt cs q with
      | some parent => setCompAt cs q (parent.setChild b j c)
      | none => cs

/-- The children of the Block the cursor's `(path, blockIndex)` reference
denotes. -/
def getBlockAt (cs : List Component) (p : CPath) (b : Nat) : Option (List Child) :=
  match getCompAt cs p with
  | some c =>
      match c.blocks[b]? with
      | some (.blk ch) => some ch
      | _ => none
  | none => none

/-- Apply `f` to the children of the referenced Block. -/
def modifyBlockAt (cs : List Component) (p : CPath) (b : Nat)
    (f : List Child → List Child) : List Component :=
  match getCompAt cs p with
  | some c => setCompAt cs p (c.modifyBlk b f)
  | none => cs

/-- Replace one entry of the referenced component's `blocks` array
(`removeBlock(i)` immediately followed by `addBlock(x, i)`). -/
def Component.setSlotIdx : Component → Nat → Slot → Component
  | .container k col bs, b, s => .container k col (bs.set b s)
  | c, _, _ => c

def setSlotAt (cs : List Component) (p : CPath) (b : Nat) (s : Slot) : List Component :=
  match getCompAt cs p with
  | some c => setCompAt cs p (c.setSlotIdx b s)
  | none => cs

/-! Structural well-formedness of trees: every container has at least one
block (all constructors build 1, 2, 3 or rows*cols blocks), no transient
`framed` slot is present, container blocks hold only Components (the editor
wraps every text run in a `TextComponent`), and a TextComponent's own block
holds only strings (that is how both the editor and the palette build
them). -/

def Child.isStr : Child → Bool
  | .str _ => true
  | .comp _ => false

mutual
def Component.wfc : Component → Bool
  | .symbol _ => true
  | .textC ch => ch.all Child.isStr
  | .container _ _ bs => decide (1 ≤ bs.length) && slotsWF bs

def slotsWF : List Slot → Bool
  | [] => true
  | .blk ch :: r => compChildrenWF ch && slotsWF r
  | .framed _ :: _ => false

def compChildrenWF : List Child → Bool
  | [] => true
  | .str _ :: _ => false
  | .comp c :: r => c.wfc && compChildrenWF r
end

def exprWF (cs : List Component) : Bool := cs.all Component.wfc

/-- The `Cursor` object.  `component`/`block` are object references in JS,
modelled as tree addresses (`block` also records which entry of the
component's `blocks` array it is, which is what `blocks.indexOf(this.block)`
recovers in the source). -/
@[ext]
structure CursorState where
  expression : List Component
  component : Option CPath
  block : Option (CPath × Nat)
  position : Int
  child : Int
  latex : String

/-- The cursor constructed on an empty Expression: top level, address -0.5. -/
def initialCursor : CursorState :=
  { expression := [], component := none, block := none,
    position := -1, child := -1, latex := "" }

/-- `Cursor.addText(text)`. -/
def addText (text : String) (s : CursorState) : CursorState :=
  match s.block with
  | none =>
      { s with
        expression := jsInsert s.expression (ceilIdx s.position) (newTextComponent text),
        child := -1,
        position := s.position + 2 }
  | some (p, b) =>
      { s with
        expression := modifyBlockAt s.expression p b
          (fun ch => jsInsert ch (ceilIdx s.child) (.comp (newTextComponent text))),
        child := s.child + 2 }

/-- `Cursor.addComponent(component)`. -/
def addComponent (c : Component) (s : CursorState) : CursorState :=
  match s.block with
  | none =>
      let i := ceilIdx s.position
      let iN := jsIdx s.expression.length i
      let e1 := jsInsert s.expression i c
      if c.isLeaf then
        { s with expression := e1, block := none, component := none,
                 position := 2 * i + 1, child := -1 }
      else
        { s with expression := e1,
                 component := some (.top iN), block := some (.top iN, 0),
                 position := 2 * i, child := -1 }
  | some (p, b) =>
      let ch := (getBlockAt s.expression p b).getD []
      let j := jsIdx ch.length (ceilIdx s.child)
      let e1 := modifyBlockAt s.expression p b
        (fun ch => jsInsert ch (ceilIdx s.child) (.comp c))
      if c.isLeaf then
        { s with expression := e1, child := s.child + 2 }
      else
        { s with expression := e1,
                 component := some (.sub p b j), block := some (.sub p b j, 0),
                 child := -1 }

/-- The two non-top branches of `Cursor.removeComponent()` (the state of the
recursive call always lands here, because the top branch sets `this.block`
to a non-null value before recursing). -/
def removeComponentRest (s : CursorState) : CursorState :=
  match s.component with
  | some (.top i) =>
      -- this.component.parent === null: find and remove it at top level
      { s with expression := jsRemove s.expression (i : Int),
               position := s.position - 1,
               component := none, block := none, child := -1 }
  | some (.sub q b j) =>
      -- remove it from its parent block, move the cursor into that block
      { s with expression := modifyBlockAt s.expression q b
                 (fun ch => jsRemove ch (j : Int)),
               child := 2 * (j : Int) - 1,
               block := some (q, b),
               component := some q }
  | none => s  -- JS would dereference null here; unreachable from callers

/-- `Cursor.removeComponent()`. -/
def removeComponent (s : CursorState) : CursorState :=
  match s.block with
  | none =>
      let prevO := idxGet s.expression (floorIdx s.position)
      if isLeafO prevO then
        let i := (floorIdx s.position).toNat
        removeComponentRest
          { s with position := 2 * floorIdx s.position,
                   component := some (.top i),
                   block := some (.top i, 0),
                   child := -1 }
      else s
  | some _ => removeComponentRest s

/-- `Cursor.backspace()`. -/
def backspace (s : CursorState) : CursorState :=
  if s.expression.length = 0 then s
  else if s.position = -1 then s
  else
    match s.block with
    | none =>
        match idxGet s.expression (floorIdx s.position) with
        | some prev =>
            if prev.isLeaf then removeComponent s
            else
              -- enter the container on the left at its rightmost address
              let i := (floorIdx s.position).toNat
              let lastB := prev.blocks.length - 1
              let lastCh := (prev.blocks.getD lastB (.blk [])).childrenOf.length
              { s with component := some (.top i),
                       block := some (.top i, lastB),
                       child := 2 * (lastCh : Int) - 1,
                       position := 2 * floorIdx s.position }
        | none => s  -- JS would dereference undefined; unreachable
    | some (p, b) =>
        match s.component with
        | some q =>
            match getCompAt s.expression q with
            | some comp =>
                if comp.isEmptyC then removeComponent s
                else if s.child ≤ -1 then
                  if b = 0 then s
                  else
                    let prevLen :=
                      (comp.blocks.getD (b - 1) (.blk [])).childrenOf.length
                    { s with block := some (q, b - 1),
                             child := 2 * (prevLen : Int) - 1 }
                else
                  { s with expression := modifyBlockAt s.expression p b
                             (fun ch => jsRemove ch (floorIdx s.child)),
                           child := s.child - 2 }
            | none => s  -- stale reference; unreachable
        | none => s  -- JS would dereference null; unreachable

/-- `Cursor.seekRight()`. -/
def seekRight (s : CursorState) : CursorState :=
  let maxPos : Int := 2 * (s.expression.length : Int) - 1
  if s.position ≥ maxPos then s
  else
    match s.block with
    | none =>
        let pos1 := s.position + 1
        match compAt s.expression pos1 with
        | some c =>
            if c.isLeaf then
              { s with position := pos1 + 1, child := -1,
                       block := none, component := none }
            else
              let i := (pos1 / 2).toNat
              { s with position := pos1,
                       component := some (.top i),
                       block := some (.top i, 0),
                       child := -1 }
        | none => s  -- JS would dereference undefined; unreachable
    | some (p, b) =>
        match s.component with
        | some q =>
            let blkCh := (getBlockAt s.expression p b).getD []
            if s.child = 2 * (blkCh.length : Int) - 1 then
              match getCompAt s.expression q with
              | some comp =>
                  if b = comp.blocks.length - 1 then
                    match q with
                    | .top _ =>
                        { s with component := none, block := none,
                                 child := -1, position := s.position + 1 }
                    | .sub q2 b2 j2 =>
                        { s with block := some (q2, b2),
                                 child := 2 * (j2 : Int) + 1,
                                 component := some q2 }
                  else
                    { s with block := some (q, b + 1), child := -1 }
              | none => s  -- stale reference; unreachable
            else
              match idxGet blkCh (ceilIdx s.child) with
              | some (.comp c) =>
                  if c.isLeaf then { s with child := s.child + 2 }
                  else
                    let j := (ceilIdx s.child).toNat
                    { s with component := some (.sub p b j),
                             block := some (.sub p b j, 0),
                             child := -1 }
              | _ => s  -- string child or out of range: JS would crash; unreachable
        | none => s  -- JS would dereference null; unreachable

/-- `Cursor.seekLeft()`. -/
def seekLeft (s : CursorState) : CursorState :=
  if s.position ≤ -1 then s
  else
    match s.block with
    | none =>
        let pos1 := s.position - 1
        match compAt s.expression pos1 with
        | some c =>
            if c.isLeaf then
              { s with position := pos1 - 1, child := -1,
                       block := none, component := none }
            else
              let i := (pos1 / 2).toNat
              let lastB := c.blocks.length - 1
              let lastCh := (c.blocks.getD lastB (.blk [])).childrenOf.length
              { s with position := pos1,
                       component := some (.top i),
                       block := some (.top i, lastB),
                       child := 2 * (lastCh : Int) - 1 }
        | none => s  -- JS would dereference undefined; unreachable
    | some (p, b) =>
        match s.component with
        | some q =>
            if s.child = -1 then
              if b = 0 then
                match q with
                | .top _ =>
                    { s with component := none, block := none,
                             child := -1, position := s.position - 1 }
                | .sub q2 b2 j2 =>
                    { s with block := some (q2, b2),
                             child := 2 * (j2 : Int) - 1,
                             component := some q2 }
              else
                match getCompAt s.expression q with
                | some comp =>
                    let prevLen :=
                      (comp.blocks.getD (b - 1) (.blk [])).childrenOf.length
                    { s with block := some (q, b - 1),
                             child := 2 * (prevLen : Int) - 1 }
                | none => s  -- stale reference; unreachable
            else
              let blkCh := (getBlockAt s.expression p b).getD []
              match idxGet blkCh (floorIdx s.child) with
              | some (.comp c) =>
                  if c.isLeaf then { s with child := s.child - 2 }
                  else
                    let j := (floorIdx s.child).toNat
                    let lastB := c.blocks.length - 1
                    let lastCh := (c.blocks.getD lastB (.blk [])).childrenOf.length
                    { s with component := some (.sub p b j),
                             block := some (.sub p b j, lastB),
                             child := 2 * (lastCh : Int) - 1 }
              | _ => s  -- string child or out of range: JS would crash; unreachable
        | none => s  -- JS would dereference null; unreachable

/-- `Cursor.toLatex()` (also records the string in `this.latex`). -/
def cursorToLatex (s : CursorState) : String × CursorState :=
  let l := exprLatex s.expression
  (l, { s with latex := l })

/-- `Cursor.toDisplayLatex()`: splice a caret `TextComponent` (and, inside a
block, wrap the current Block in a `FrameBox` put into the `blocks` array)
into the live tree, serialize, then undo both edits. -/
def toDisplayLatex (s : CursorState) : String × CursorState :=
  let caret : Component := .textC [.str "|"]
  match s.block with
  | none =>
      let e1 := jsInsert s.expression (ceilIdx s.position) caret
      let l := exprLatex e1
      let e2 := jsRemove e1 (ceilIdx s.position)
      (l, { s with expression := e2, latex := l })
  | some (p, b) =>
      match s.component with
      | some q =>
          -- i = this.component.blocks.indexOf(this.block) = b
          let orig := (getBlockAt s.expression p b).getD []
          let withCaret := jsInsert orig (ceilIdx s.child) (.comp caret)
          let frame : Component := .container .frameBox "null" [.blk withCaret]
          let e1 := setSlotAt s.expression q b (.framed frame)
          let l := exprLatex e1
          let restored := jsRemove withCaret (ceilIdx s.child)
          let e2 := setSlotAt e1 q b (.blk restored)
          (l, { s with expression := e2, latex := l })
      | none =>  -- JS would dereference null; unreachable
          let l := exprLatex s.expression
          (l, { s with latex := l })

/-- Which states arise from the initial empty-expression cursor through the
public editing operations (`addComponent` receives components freshly built
by the palette, which are all well-formed). -/
inductive Reachable : CursorState → Prop where
  | init : Reachable initialCursor
  | text (t : String) {s : CursorState} : Reachable s → Reachable (addText t s)
  | comp (c : Component) {s : CursorState} :
      c.wfc = true → Reachable s → Reachable (addComponent c s)
  | back {s : CursorState} : Reachable s → Reachable (backspace s)
  | left {s : CursorState} : Reachable s → Reachable (seekLeft s)
  | right {s : CursorState} : Reachable s → Reachable (seekRight s)

/-!  Claim C1: inserting N text leaves then backspacing N times round-trips. -/

/-- `addText` once for each element of `chars`, in order. -/
def applyTexts : List String → CursorState → CursorState
  | [], s => s
  | t :: r, s => applyTexts r (addText t s)

/-- `backspace` applied `n` times. -/
def applyBackspaces : Nat → CursorState → CursorState
  | 0, s => s
  | n + 1, s => applyBackspaces n (backspace s)

lemma addText_top (es : List Component) (t : String) (l : String) :
    addText t { expression := es, component := none, block := none,
                position := 2 * (es.length : Int) - 1, child := -1, latex := l } =
      { expression := es ++ [newTextComponent t], component := none, block := none,
        position := 2 * (es.length : Int) + 1, child := -1, latex := l } := by
  have hceil : ceilIdx (2 * (es.length : Int) - 1) = (es.length : Int) := by
    unfold ceilIdx; omega
  have hidx : jsIdx es.length (es.length : Int) = es.length := by
    simp only [jsIdx, if_neg (show ¬((es.length : Int) < 0) by omega)]
    omega
  simp only [addText, hceil, jsInsert, hidx]
  ext <;> simp
  omega

lemma removeComponent_last (es : List Component) (t : String) (l : String) :
    removeComponent
      { expression := es ++ [newTextComponent t], component := none, block := none,
        position := 2 * (es.length : Int) + 1, child := -1, latex := l } =
      { expression := es, component := none, block := none,
        position := 2 * (es.length : Int) - 1, child := -1, latex := l } := by
  have hfloor : floorIdx (2 * (es.length : Int) + 1) = (es.length : Int) := by
    unfold floorIdx; omega
  have hget : idxGet (es ++ [newTextComponent t]) (es.length : Int) =
      some (newTextComponent t) := by
    unfold idxGet
    simp [List.getElem?_concat_length]
  have hrem : jsRemove (es ++ [newTextComponent t]) ((es.length : Int)) = es := by
    unfold jsRemove jsIdx
    simp only [List.length_append, List.length_cons, List.length_nil]
    rw [if_neg (by omega : ¬ ((es.length : Int) < 0))]
    have h1 : min (es.length : Int).toNat (es.length + 1) = es.length := by omega
    rw [h1, List.take_left]
    simp
  unfold removeComponent
  simp only [hfloor, hget, isLeafO]
  have hl : (newTextComponent t).isLeaf = true := rfl
  rw [if_pos hl]
  unfold removeComponentRest
  simp only [Int.toNat_natCast, hrem]

lemma backspace_last (es : List Component) (t : String) (l : String) :
    backspace
      { expression := es ++ [newTextComponent t], component := none, block := none,
        position := 2 * (es.length : Int) + 1, child := -1, latex := l } =
      { expression := es, component := none, block := none,
        position := 2 * (es.length : Int) - 1, child := -1, latex := l } := by
  have hfloor : floorIdx (2 * (es.length : Int) + 1) = (es.length : Int) := by
    unfold floorIdx; omega
  have hget : idxGet (es ++ [newTextComponent t]) (es.length : Int) =
      some (newTextComponent t) := by
    unfold idxGet
    simp [List.getElem?_concat_length]
  have hl : (newTextComponent t).isLeaf = true := rfl
  unfold backspace
  rw [if_neg (by simp : ¬ ((es ++ [newTextComponent t]).length = 0)),
      if_neg (by omega : ¬ ((2 * (es.length : Int) + 1) = -1))]
  simp only [hfloor, hget]
  rw [if_pos hl]
  exact removeComponent_last es t l

lemma applyTexts_top (chars : List String) : ∀ (es : List Component) (l : String),
    applyTexts chars
      { expression := es, component := none, block := none,
        position := 2 * (es.length : Int) - 1, child := -1, latex := l } =
      { expression := es ++ chars.map newTextComponent, component := none, block := none,
        position := 2 * ((es.length + chars.length : Nat) : Int) - 1, child := -1,
        latex := l } := by
  induction chars with
  | nil => intro es l; simp [applyTexts]
  | cons t r ih =>
      intro es l
      simp only [applyTexts]
      rw [addText_top]
      have h2 : 2 * (es.length : Int) + 1 = 2 * ((es ++ [newTextComponent t]).length : Int) - 1 := by
        simp; omega
      rw [h2, ih]
      simp [List.append_assoc]
      omega

lemma applyBackspaces_texts (chars : List String) : ∀ (l : String),
    applyBackspaces chars.length
      { expression := chars.map newTextComponent, component := none, block := none,
        position := 2 * (chars.length : Int) - 1, child := -1, latex := l } =
      { expression := [], component := none, block := none,
        position := -1, child := -1, latex := l } := by
  induction chars using List.reverseRecOn with
  | nil => intro l; simp [applyBackspaces]
  | append_singleton cs c ih =>
      intro l
      rw [List.length_append, List.map_append]
      simp only [List.length_cons, List.length_nil, List.map_cons, List.map_nil,
        Nat.zero_add]
      simp only [applyBackspaces]
      have hb := backspace_last (cs.map newTextComponent) c l
      rw [List.length_map] at hb
      have harg : 2 * (((cs.length + 1 : Nat)) : Int) - 1 = 2 * ((cs.length : Nat) : Int) + 1 := by
        push_cast; omega
      rw [harg, hb]
      exact ih l

/-- C1. Starting from the empty Expression with the cursor at top level at
address -0.5 (doubled: -1), inserting any `n` text leaves with
`addText` and then calling `backspace` `n` times returns the Expression to
zero components and the cursor to top level with `position = -0.5`,
`child = -0.5`, `block = null`, `component = null`. -/
theorem C1_insert_delete_roundtrip (chars : List String) :
    (applyBackspaces chars.length (applyTexts chars initialCursor)).expression = [] ∧
    (applyBackspaces chars.length (applyTexts chars initialCursor)).position = -1 ∧
    (applyBackspaces chars.length (applyTexts chars initialCursor)).child = -1 ∧
    (applyBackspaces chars.length (applyTexts chars initialCursor)).block = none ∧
    (applyBackspaces chars.length (applyTexts chars initialCursor)).component = none := by
  have h0 : initialCursor =
      { expression := ([] : List Component), component := none, block := none,
        position := 2 * (([] : List Component).length : Int) - 1, child := -1, latex := "" } := by
    simp [initialCursor]
  rw [h0, applyTexts_top]
  simp only [List.nil_append, List.length_nil, Nat.zero_add]
  rw [applyBackspaces_texts]
  exact ⟨rfl, rfl, rfl, rfl, rfl⟩

/-!  Generic facts about the splice / list-surgery helpers. -/

lemma list_set_self {α : Type} (l : List α) (i : Nat) (a : α) (h : l[i]? = some a) :
    l.set i a = l := by
  apply List.ext_getElem?
  intro n
  rcases eq_or_ne i n with rfl | hne
  · rw [h, List.getElem?_set_self]
    exact (List.getElem?_eq_some.mp h).1
  · rw [List.getElem?_set_ne hne]

lemma listModify_getElem_self {α : Type} (l : List α) (i : Nat) (f : α → α) (a : α)
    (h : l[i]? = some a) : (listModify l i f)[i]? = some (f a) := by
  unfold listModify
  rw [h, List.getElem?_set_self]
  exact (List.getElem?_eq_some.mp h).1

lemma length_listModify {α : Type} (l : List α) (i : Nat) (f : α → α) :
    (listModify l i f).length = l.length := by
  unfold listModify
  cases h : l[i]? <;> simp

lemma listModify_eq_self {α : Type} (l : List α) (i : Nat) (f : α → α) (a : α)
    (h : l[i]? = some a) (hf : f a = a) : listModify l i f = l := by
  simp only [listModify, h, hf]
  exact list_set_self l i a h

lemma listModify_listModify {α : Type} (l : List α) (i : Nat) (f g : α → α) :
    listModify (listModify l i f) i g = listModify l i (fun a => g (f a)) := by
  cases h : l[i]? with
  | none => simp only [listModify, h]
  | some a =>
      have h1 : (l.set i (f a))[i]? = some (f a) :=
        List.getElem?_set_self (List.getElem?_eq_some.mp h).1
      simp only [listModify, h, h1, List.set_set]

lemma listModify_getElem_ne {α : Type} (l : List α) (i n : Nat) (f : α → α) (hne : i ≠ n) :
    (listModify l i f)[n]? = l[n]? := by
  unfold listModify
  cases h : l[i]?
  · rfl
  · rw [List.getElem?_set_ne hne]

lemma jsIdx_le (len : Nat) (i : Int) : jsIdx len i ≤ len := by
  unfold jsIdx
  split <;> omega

lemma jsIdx_of_bounds (len : Nat) (i : Int) (h0 : 0 ≤ i) (h1 : i ≤ (len : Int)) :
    jsIdx len i = i.toNat := by
  unfold jsIdx
  rw [if_neg (by omega)]
  omega

lemma length_jsInsert {α : Type} (l : List α) (i : Int) (a : α) :
    (jsInsert l i a).length = l.length + 1 := by
  have := jsIdx_le l.length i
  simp only [jsInsert, List.length_append, List.length_take, List.length_cons,
    List.length_drop]
  omega

lemma length_jsRemove_of_lt {α : Type} (l : List α) (i : Int) (h0 : 0 ≤ i)
    (h1 : i < (l.length : Int)) : (jsRemove l i).length = l.length - 1 := by
  have h2 : jsIdx l.length i = i.toNat := jsIdx_of_bounds l.length i h0 (by omega)
  simp only [jsRemove, h2, List.length_append, List.length_take, List.length_drop]
  omega

lemma getElem_jsInsert_self {α : Type} (l : List α) (i : Int) (a : α) :
    (jsInsert l i a)[jsIdx l.length i]? = some a := by
  have hk := jsIdx_le l.length i
  rw [jsInsert, List.getElem?_append_right (by simp [List.length_take])]
  have hmin : jsIdx l.length i ⊓ l.length = jsIdx l.length i := min_eq_left hk
  simp [List.length_take, hmin]

lemma jsRemove_jsInsert {α : Type} (l : List α) (i : Int) (a : α)
    (h0 : 0 ≤ i) (h1 : i ≤ (l.length : Int)) : jsRemove (jsInsert l i a) i = l := by
  have hk : jsIdx l.length i = i.toNat := jsIdx_of_bounds l.length i h0 h1
  have hk2 : jsIdx (l.length + 1) i = i.toNat := jsIdx_of_bounds (l.length + 1) i h0 (by omega)
  have htl : (l.take i.toNat).length = i.toNat := by simp; omega
  rw [jsRemove, length_jsInsert, hk2, jsInsert, hk]
  have hd : (l.take i.toNat ++ a :: l.drop i.toNat).drop (i.toNat + 1) = l.drop i.toNat := by
    rw [← List.drop_drop 1 i.toNat, List.drop_left' htl]
    simp
  rw [List.take_left' htl, hd, List.take_append_drop]


/-!  Component-level surgery lemmas. -/

lemma blocks_modifyBlk_same (par : Component) (b : Nat) (f : List Child → List Child)
    (ch : List Child) (h : par.blocks[b]? = some (.blk ch)) :
    (par.modifyBlk b f).blocks[b]? = some (.blk (f ch)) := by
  cases par with
  | symbol l => simp [Component.blocks] at h
  | textC ch0 =>
      simp only [Component.blocks] at h
      cases b with
      | zero =>
          simp only [List.getElem?_cons_zero, Option.some.injEq, Slot.blk.injEq] at h
          subst h
          simp [Component.modifyBlk, Component.blocks]
      | succ n => simp at h
  | container k col bs =>
      simp only [Component.blocks] at h ⊢
      simp only [Component.modifyBlk]
      have := listModify_getElem_self bs b
        (fun s => match s with | .blk ch => .blk (f ch) | s => s) (.blk ch) h
      simpa using this

lemma blocks_length_modifyBlk (par : Component) (b : Nat) (f : List Child → List Child) :
    (par.modifyBlk b f).blocks.length = par.blocks.length := by
  cases par with
  | symbol l => rfl
  | textC ch0 => simp only [Component.modifyBlk]; split <;> rfl
  | container k col bs =>
      simp [Component.modifyBlk, Component.blocks, length_listModify]

lemma blocks_modifyBlk_ne (par : Component) (b n : Nat) (f : List Child → List Child)
    (hne : b ≠ n) : (par.modifyBlk b f).blocks[n]? = par.blocks[n]? := by
  cases par with
  | symbol l => rfl
  | textC ch0 =>
      by_cases hb : b = 0
      · subst hb
        cases n with
        | zero => omega
        | succ m => simp [Component.modifyBlk, Component.blocks]
      · simp [Component.modifyBlk, hb]
  | container k col bs =>
      simp only [Component.modifyBlk, Component.blocks]
      exact listModify_getElem_ne bs b n _ hne

lemma isLeaf_modifyBlk (par : Component) (b : Nat) (f : List Child → List Child) :
    (par.modifyBlk b f).isLeaf = par.isLeaf := by
  cases par with
  | symbol l => rfl
  | textC ch0 => simp only [Component.modifyBlk]; split <;> rfl
  | container k col bs => rfl

lemma modifyBlk_modifyBlk (par : Component) (b : Nat) (f g : List Child → List Child) :
    (par.modifyBlk b f).modifyBlk b g = par.modifyBlk b (fun ch => g (f ch)) := by
  cases par with
  | symbol l => rfl
  | textC ch0 =>
      by_cases hb : b = 0
      · subst hb
        simp [Component.modifyBlk]
      · simp [Component.modifyBlk, hb]
  | container k col bs =>
      simp only [Component.modifyBlk, Component.container.injEq, true_and]
      rw [listModify_listModify]
      congr 1
      funext s
      cases s <;> rfl

lemma modifyBlk_eq_self (par : Component) (b : Nat) (f : List Child → List Child)
    (ch : List Child) (h : par.blocks[b]? = some (.blk ch)) (hf : f ch = ch) :
    par.modifyBlk b f = par := by
  cases par with
  | symbol l => simp [Component.blocks] at h
  | textC ch0 =>
      simp only [Component.blocks] at h
      cases b with
      | zero =>
          simp only [List.getElem?_cons_zero, Option.some.injEq, Slot.blk.injEq] at h
          subst h
          simp [Component.modifyBlk, hf]
      | succ n => simp at h
  | container k col bs =>
      simp only [Component.blocks] at h
      simp only [Component.modifyBlk, Component.container.injEq, true_and]
      exact listModify_eq_self bs b _ (.blk ch) h (by simp [hf])

lemma setChild_setChild (par : Component) (b j : Nat) (c1 c2 : Component) :
    (par.setChild b j c1).setChild b j c2 = par.setChild b j c2 := by
  unfold Component.setChild
  rw [modifyBlk_modifyBlk]
  congr 1
  funext ch
  rw [listModify_listModify]

lemma setChild_eq_self (par : Component) (b j : Nat) (c : Component) (ch : List Child)
    (h : par.blocks[b]? = some (.blk ch)) (hj : ch[j]? = some (.comp c)) :
    par.setChild b j c = par := by
  unfold Component.setChild
  exact modifyBlk_eq_self par b _ ch h (listModify_eq_self ch j _ (.comp c) hj rfl)

/-!  Path lemmas: get/set laws for `getCompAt`/`setCompAt`. -/

lemma getCompAt_sub_inv {cs : List Component} {q : CPath} {b j : Nat} {c : Component}
    (h : getCompAt cs (.sub q b j) = some c) :
    ∃ parent ch, getCompAt cs q = some parent ∧ parent.blocks[b]? = some (.blk ch) ∧
      ch[j]? = some (.comp c) := by
  unfold getCompAt at h
  cases hq : getCompAt cs q with
  | none => simp [hq] at h
  | some parent =>
      simp only [hq] at h
      cases hb : parent.blocks[b]? with
      | none => simp [hb] at h
      | some s =>
          simp only [hb] at h
          cases s with
          | framed f => simp at h
          | blk ch =>
              cases hj : ch[j]? with
              | none => simp [hj] at h
              | some x =>
                  simp only [hj] at h
                  cases x with
                  | str t => simp at h
                  | comp c2 =>
                      simp only [Option.some.injEq] at h
                      subst h
                      exact ⟨parent, ch, rfl, hb, hj⟩

lemma getCompAt_setCompAt (cs : List Component) :
    ∀ (p : CPath) (c0 c1 : Component), getCompAt cs p = some c0 →
    getCompAt (setCompAt cs p c1) p = some c1 := by
  intro p
  induction p generalizing cs with
  | top i =>
      intro c0 c1 h
      simp only [getCompAt, setCompAt] at h ⊢
      exact List.getElem?_set_self (List.getElem?_eq_some.mp h).1
  | sub q b j ih =>
      intro c0 c1 h
      obtain ⟨parent, ch, hq, hb, hj⟩ := getCompAt_sub_inv h
      simp only [setCompAt, hq]
      have h1 : getCompAt (setCompAt cs q (parent.setChild b j c1)) q =
          some (parent.setChild b j c1) := ih cs parent _ hq
      have h2 : (parent.setChild b j c1).blocks[b]? =
          some (.blk (listModify ch j (fun _ => Child.comp c1))) :=
        blocks_modifyBlk_same parent b _ ch hb
      have h3 := listModify_getElem_self ch j (fun _ => Child.comp c1) (Child.comp c0) hj
      simp only [getCompAt, h1, h2, h3]

lemma setCompAt_setCompAt (cs : List Component) :
    ∀ (p : CPath) (c0 c1 c2 : Component), getCompAt cs p = some c0 →
    setCompAt (setCompAt cs p c1) p c2 = setCompAt cs p c2 := by
  intro p
  induction p generalizing cs with
  | top i =>
      intro c0 c1 c2 h
      simp only [setCompAt]
      exact List.set_set c1 c2 cs i
  | sub q b j ih =>
      intro c0 c1 c2 h
      obtain ⟨parent, ch, hq, hb, hj⟩ := getCompAt_sub_inv h
      have h1 : getCompAt (setCompAt cs q (parent.setChild b j c1)) q =
          some (parent.setChild b j c1) := getCompAt_setCompAt cs q parent _ hq
      simp only [setCompAt, hq, h1]
      rw [setChild_setChild, ih cs parent _ _ hq]

lemma setCompAt_eq_self (cs : List Component) :
    ∀ (p : CPath) (c0 : Component), getCompAt cs p = some c0 →
    setCompAt cs p c0 = cs := by
  intro p
  induction p generalizing cs with
  | top i =>
      intro c0 h
      simp only [setCompAt]
      exact list_set_self cs i c0 h
  | sub q b j ih =>
      intro c0 h
      obtain ⟨parent, ch, hq, hb, hj⟩ := getCompAt_sub_inv h
      simp only [setCompAt, hq]
      rw [setChild_eq_self parent b j c0 ch hb hj]
      exact ih cs parent hq

lemma length_setCompInternal (cs : List Component) :
    ∀ (p : CPath) (c : Component), (setCompAt cs p c).length = cs.length := by
  intro p
  induction p generalizing cs with
  | top i => intro c; simp [setCompAt]
  | sub q b j ih =>
      intro c
      simp only [setCompAt]
      cases hq : getCompAt cs q with
      | none => rfl
      | some parent => exact ih cs _

/-!  Derived laws for `modifyBlockAt` / `getBlockAt` / `setSlotAt`. -/

lemma getCompAt_modifyBlockAt_self {cs : List Component} {p : CPath} {c0 : Component}
    (b : Nat) (f : List Child → List Child) (h : getCompAt cs p = some c0) :
    getCompAt (modifyBlockAt cs p b f) p = some (c0.modifyBlk b f) := by
  unfold modifyBlockAt
  rw [h]
  exact getCompAt_setCompAt cs p c0 _ h

lemma getBlockAt_some_inv {cs : List Component} {p : CPath} {b : Nat} {ch : List Child}
    (h : getBlockAt cs p b = some ch) :
    ∃ c0, getCompAt cs p = some c0 ∧ c0.blocks[b]? = some (.blk ch) := by
  unfold getBlockAt at h
  cases hq : getCompAt cs p with
  | none => simp [hq] at h
  | some c0 =>
      simp only [hq] at h
      cases hb : c0.blocks[b]? with
      | none => simp [hb] at h
      | some s =>
          simp only [hb] at h
          cases s with
          | framed f => simp at h
          | blk ch2 =>
              simp only [Option.some.injEq] at h
              subst h
              exact ⟨c0, rfl, hb⟩

lemma getBlockAt_modifyBlockAt_self {cs : List Component} {p : CPath} {b : Nat}
    {ch : List Child} (f : List Child → List Child) (h : getBlockAt cs p b = some ch) :
    getBlockAt (modifyBlockAt cs p b f) p b = some (f ch) := by
  obtain ⟨c0, hq, hb⟩ := getBlockAt_some_inv h
  unfold getBlockAt
  simp only [getCompAt_modifyBlockAt_self b f hq, blocks_modifyBlk_same c0 b f ch hb]

lemma length_modifyBlockAt (cs : List Component) (p : CPath) (b : Nat)
    (f : List Child → List Child) : (modifyBlockAt cs p b f).length = cs.length := by
  unfold modifyBlockAt
  cases hq : getCompAt cs p with
  | none => rfl
  | some c0 => exact length_setCompInternal cs p _

lemma getBlockAt_of_comp {cs : List Component} {p : CPath} {c0 : Component} {b : Nat}
    {ch : List Child} (hq : getCompAt cs p = some c0)
    (hb : c0.blocks[b]? = some (.blk ch)) : getBlockAt cs p b = some ch := by
  simp only [getBlockAt, hq, hb]


/-!  Well-formedness: characterizations and preservation. -/

lemma compChildrenWF_iff (ch : List Child) :
    compChildrenWF ch = true ↔ ∀ x ∈ ch, ∃ c, x = Child.comp c ∧ c.wfc = true := by
  induction ch with
  | nil => simp [compChildrenWF]
  | cons x r ih =>
      cases x with
      | str s =>
          simp only [compChildrenWF, List.mem_cons]
          constructor
          · intro h; exact absurd h (by simp)
          · intro h
            obtain ⟨c, hc, _⟩ := h (.str s) (Or.inl rfl)
            exact absurd hc (by simp)
      | comp c =>
          simp only [compChildrenWF, Bool.and_eq_true, ih, List.mem_cons]
          constructor
          · rintro ⟨h1, h2⟩ x (rfl | hx)
            · exact ⟨c, rfl, h1⟩
            · exact h2 x hx
          · intro h
            refine ⟨?_, fun x hx => h x (Or.inr hx)⟩
            obtain ⟨c2, hc2, hw⟩ := h (.comp c) (Or.inl rfl)
            cases hc2
            exact hw

lemma slotsWF_iff (bs : List Slot) :
    slotsWF bs = true ↔ ∀ s ∈ bs, ∃ ch, s = Slot.blk ch ∧ compChildrenWF ch = true := by
  induction bs with
  | nil => simp [slotsWF]
  | cons s r ih =>
      cases s with
      | framed f =>
          simp only [slotsWF, List.mem_cons]
          constructor
          · intro h; exact absurd h (by simp)
          · intro h
            obtain ⟨ch, hc, _⟩ := h (.framed f) (Or.inl rfl)
            exact absurd hc (by simp)
      | blk ch =>
          simp only [slotsWF, Bool.and_eq_true, ih, List.mem_cons]
          constructor
          · rintro ⟨h1, h2⟩ x (rfl | hx)
            · exact ⟨ch, rfl, h1⟩
            · exact h2 x hx
          · intro h
            refine ⟨?_, fun x hx => h x (Or.inr hx)⟩
            obtain ⟨ch2, hc2, hw⟩ := h (.blk ch) (Or.inl rfl)
            cases hc2
            exact hw

lemma wfc_container_iff (k : CKind) (col : String) (bs : List Slot) :
    (Component.container k col bs).wfc = true ↔ 1 ≤ bs.length ∧ slotsWF bs = true := by
  simp [Component.wfc, Bool.and_eq_true]

lemma exprWF_iff (cs : List Component) :
    exprWF cs = true ↔ ∀ c ∈ cs, c.wfc = true := by
  simp [exprWF, List.all_eq_true]

lemma wfc_blocks_get {c0 : Component} {b : Nat} {s : Slot}
    (hw : c0.wfc = true) (hb : c0.blocks[b]? = some s) (hl : c0.isLeaf = false) :
    ∃ ch, s = Slot.blk ch ∧ compChildrenWF ch = true := by
  cases c0 with
  | symbol l => simp [Component.isLeaf] at hl
  | textC ch0 => simp [Component.isLeaf] at hl
  | container k col bs =>
      rw [wfc_container_iff] at hw
      exact (slotsWF_iff bs).mp hw.2 s (List.getElem?_mem hb)

lemma wfc_of_getCompAt {cs : List Component} : ∀ {p : CPath} {c : Component},
    exprWF cs = true → getCompAt cs p = some c → c.wfc = true := by
  intro p
  induction p with
  | top i =>
      intro c hw h
      exact (exprWF_iff cs).mp hw c (List.getElem?_mem h)
  | sub q b j ih =>
      intro c hw h
      obtain ⟨parent, ch, hq, hb, hj⟩ := getCompAt_sub_inv h
      have hpw : parent.wfc = true := ih hw hq
      cases parent with
      | symbol l => simp [Component.blocks] at hb
      | textC ch0 =>
          simp only [Component.blocks] at hb
          cases b with
          | zero =>
              simp only [List.getElem?_cons_zero, Option.some.injEq, Slot.blk.injEq] at hb
              subst hb
              have := (List.all_eq_true.mp hpw) _ (List.getElem?_mem hj)
              simp [Child.isStr] at this
          | succ n => simp at hb
      | container k col bs =>
          rw [wfc_container_iff] at hpw
          obtain ⟨ch2, hc2, hcw⟩ := (slotsWF_iff bs).mp hpw.2 _ (List.getElem?_mem hb)
          rw [Slot.blk.injEq] at hc2
          subst hc2
          obtain ⟨c2, hc2, hw2⟩ := (compChildrenWF_iff ch).mp hcw _ (List.getElem?_mem hj)
          rw [Child.comp.injEq] at hc2
          subst hc2
          exact hw2

lemma compChildrenWF_jsInsert {ch : List Child} {c : Component} (k : Int)
    (h : compChildrenWF ch = true) (hc : c.wfc = true) :
    compChildrenWF (jsInsert ch k (.comp c)) = true := by
  rw [compChildrenWF_iff]
  intro x hx
  rw [jsInsert] at hx
  rcases List.mem_append.mp hx with hx1 | hx2
  · exact (compChildrenWF_iff ch).mp h x (List.mem_of_mem_take hx1)
  · rcases List.mem_cons.mp hx2 with rfl | hx3
    · exact ⟨c, rfl, hc⟩
    · exact (compChildrenWF_iff ch).mp h x (List.mem_of_mem_drop hx3)

lemma compChildrenWF_jsRemove {ch : List Child} (k : Int)
    (h : compChildrenWF ch = true) : compChildrenWF (jsRemove ch k) = true := by
  rw [compChildrenWF_iff]
  intro x hx
  rw [jsRemove] at hx
  rcases List.mem_append.mp hx with hx1 | hx2
  · exact (compChildrenWF_iff ch).mp h x (List.mem_of_mem_take hx1)
  · exact (compChildrenWF_iff ch).mp h x (List.mem_of_mem_drop hx2)

lemma wfc_setChild {parent c0 c : Component} {b j : Nat} {ch : List Child}
    (hw : parent.wfc = true) (hb : parent.blocks[b]? = some (.blk ch))
    (hj : ch[j]? = some (.comp c0)) (hc : c.wfc = true) :
    (parent.setChild b j c).wfc = true := by
  cases parent with
  | symbol l => simp [Component.blocks] at hb
  | textC ch0 =>
      simp only [Component.blocks] at hb
      cases b with
      | zero =>
          simp only [List.getElem?_cons_zero, Option.some.injEq, Slot.blk.injEq] at hb
          subst hb
          have := (List.all_eq_true.mp hw) _ (List.getElem?_mem hj)
          simp [Child.isStr] at this
      | succ n => simp at hb
  | container k col bs =>
      rw [wfc_container_iff] at hw
      unfold Component.setChild Component.modifyBlk
      rw [wfc_container_iff]
      constructor
      · rw [length_listModify]; exact hw.1
      · rw [slotsWF_iff]
        intro s hs
        unfold listModify at hs
        cases hbs : bs[b]? with
        | none => rw [hbs] at hs; exact (slotsWF_iff bs).mp hw.2 s hs
        | some s0 =>
            rw [hbs] at hs
            rcases List.mem_or_eq_of_mem_set hs with hmem | rfl
            · exact (slotsWF_iff bs).mp hw.2 s hmem
            · simp only [Component.blocks] at hb
              rw [hbs] at hb
              simp only [Option.some.injEq] at hb
              subst hb
              refine ⟨listModify ch j (fun _ => Child.comp c), rfl, ?_⟩
              obtain ⟨ch2, hc2, hcw⟩ := (slotsWF_iff bs).mp hw.2 _ (List.getElem?_mem hbs)
              rw [Slot.blk.injEq] at hc2
              rw [compChildrenWF_iff]
              intro x hx
              unfold listModify at hx
              rw [hj] at hx
              rcases List.mem_or_eq_of_mem_set hx with hmem2 | rfl
              · exact (compChildrenWF_iff ch).mp (hc2 ▸ hcw) x hmem2
              · exact ⟨c, rfl, hc⟩

lemma exprWF_setCompAt {cs : List Component} : ∀ {p : CPath} {c0 c : Component},
    exprWF cs = true → getCompAt cs p = some c0 → c.wfc = true →
    exprWF (setCompAt cs p c) = true := by
  intro p
  induction p with
  | top i =>
      intro c0 c hw h hc
      rw [exprWF_iff]
      intro x hx
      simp only [setCompAt] at hx
      rcases List.mem_or_eq_of_mem_set hx with hmem | rfl
      · exact (exprWF_iff cs).mp hw x hmem
      · exact hc
  | sub q b j ih =>
      intro c0 c hw h hc
      obtain ⟨parent, ch, hq, hb, hj⟩ := getCompAt_sub_inv h
      simp only [setCompAt, hq]
      have hpw : parent.wfc = true := wfc_of_getCompAt hw hq
      exact ih hw hq (wfc_setChild hpw hb hj hc)


/-!  The cursor-state invariant.  In a well-formed resting state: the tree is
well-formed; `block`/`component` are both null (top level) or both set and
consistent; at top level `position` is an odd doubled address (a half-integer)
in range and `child` is -1; inside a block the referenced component is a
container, `b` indexes one of its blocks, `child` is an odd doubled address in
that block's range, and `position` is the (doubled, integer) index of the
enclosing top-level component. -/

def refsWF (e : List Component) (p : CPath) (b : Nat) (child pos : Int) : Bool :=
  match getCompAt e p with
  | some (.container _ _ bs) =>
      (match bs[b]? with
       | some (.blk ch) =>
           decide (child % 2 = 1) && decide (-1 ≤ child) &&
           decide (child ≤ 2 * (ch.length : Int) - 1)
       | _ => false) &&
      decide (pos = 2 * (p.topIdx : Int))
  | _ => false

def wfState (s : CursorState) : Bool :=
  exprWF s.expression &&
  (match s.block, s.component with
   | none, none =>
       decide (s.position % 2 = 1) && decide (-1 ≤ s.position) &&
       decide (s.position ≤ 2 * (s.expression.length : Int) - 1) && decide (s.child = -1)
   | some (p, b), some q => decide (p = q) && refsWF s.expression p b s.child s.position
   | _, _ => false)

lemma refsWF_intro {e : List Component} {p : CPath} {b : Nat} {child pos : Int}
    {k : CKind} {col : String} {bs : List Slot} {ch : List Child}
    (hq : getCompAt e p = some (.container k col bs)) (hb : bs[b]? = some (.blk ch))
    (h1 : child % 2 = 1) (h2 : -1 ≤ child) (h3 : child ≤ 2 * (ch.length : Int) - 1)
    (h4 : pos = 2 * (p.topIdx : Int)) : refsWF e p b child pos = true := by
  simp only [refsWF, hq, hb, Bool.and_eq_true, decide_eq_true_eq]
  exact ⟨⟨⟨h1, h2⟩, h3⟩, h4⟩

lemma refsWF_elim {e : List Component} {p : CPath} {b : Nat} {child pos : Int}
    (h : refsWF e p b child pos = true) :
    ∃ k col bs ch, getCompAt e p = some (.container k col bs) ∧
      bs[b]? = some (.blk ch) ∧ child % 2 = 1 ∧ -1 ≤ child ∧
      child ≤ 2 * (ch.length : Int) - 1 ∧ pos = 2 * (p.topIdx : Int) := by
  unfold refsWF at h
  cases hq : getCompAt e p with
  | none => simp [hq] at h
  | some c =>
      simp only [hq] at h
      cases c with
      | symbol l => simp at h
      | textC ch0 => simp at h
      | container k col bs =>
          cases hb : bs[b]? with
          | none => simp [hb] at h
          | some s =>
              simp only [hb] at h
              cases s with
              | framed f => simp at h
              | blk ch =>
                  simp only [Bool.and_eq_true, decide_eq_true_eq] at h
                  exact ⟨k, col, bs, ch, rfl, hb, h.1.1.1, h.1.1.2, h.1.2, h.2⟩

lemma wfState_intro_top {e : List Component} {pos : Int} {lx : String}
    (hw : exprWF e = true) (h1 : pos % 2 = 1) (h2 : -1 ≤ pos)
    (h3 : pos ≤ 2 * (e.length : Int) - 1) :
    wfState { expression := e, component := none, block := none,
              position := pos, child := -1, latex := lx } = true := by
  simp only [wfState, Bool.and_eq_true, decide_eq_true_eq]
  exact ⟨hw, ⟨⟨⟨h1, h2⟩, h3⟩, trivial⟩⟩

lemma wfState_intro_inside {e : List Component} {p : CPath} {b : Nat}
    {child pos : Int} {lx : String} (hw : exprWF e = true)
    (hr : refsWF e p b child pos = true) :
    wfState { expression := e, component := some p, block := some (p, b),
              position := pos, child := child, latex := lx } = true := by
  simp only [wfState, Bool.and_eq_true, decide_eq_true_eq]
  exact ⟨hw, trivial, hr⟩

lemma wfState_block_none {s : CursorState} (h : wfState s = true) (hb : s.block = none) :
    s.component = none ∧ exprWF s.expression = true ∧ s.position % 2 = 1 ∧
    -1 ≤ s.position ∧ s.position ≤ 2 * (s.expression.length : Int) - 1 ∧ s.child = -1 := by
  unfold wfState at h
  rw [hb] at h
  cases hc : s.component with
  | none =>
      rw [hc] at h
      simp only [Bool.and_eq_true, decide_eq_true_eq] at h
      exact ⟨rfl, h.1, h.2.1.1.1, h.2.1.1.2, h.2.1.2, h.2.2⟩
  | some q => rw [hc] at h; simp at h

lemma wfState_block_some {s : CursorState} {p : CPath} {b : Nat}
    (h : wfState s = true) (hb : s.block = some (p, b)) :
    s.component = some p ∧ exprWF s.expression = true ∧
    refsWF s.expression p b s.child s.position = true := by
  unfold wfState at h
  rw [hb] at h
  cases hc : s.component with
  | none => rw [hc] at h; simp at h
  | some q =>
      rw [hc] at h
      simp only [Bool.and_eq_true, decide_eq_true_eq] at h
      obtain ⟨hw, hpq, hr⟩ := h
      subst hpq
      exact ⟨rfl, hw, hr⟩

lemma wfState_comp_none {s : CursorState} (h : wfState s = true)
    (hc : s.component = none) : s.block = none := by
  unfold wfState at h
  rw [hc] at h
  cases hb : s.block with
  | none => rfl
  | some pb =>
      rw [hb] at h
      rcases pb with ⟨p, b⟩
      simp at h


/-!  Invariant preservation, operation by operation. -/

lemma wfc_newTextComponent (t : String) : (newTextComponent t).wfc = true := rfl

lemma exprWF_jsInsert {e : List Component} {c : Component} (k : Int)
    (hw : exprWF e = true) (hc : c.wfc = true) : exprWF (jsInsert e k c) = true := by
  rw [exprWF_iff]
  intro x hx
  rw [jsInsert] at hx
  rcases List.mem_append.mp hx with hx1 | hx2
  · exact (exprWF_iff e).mp hw x (List.mem_of_mem_take hx1)
  · rcases List.mem_cons.mp hx2 with rfl | hx3
    · exact hc
    · exact (exprWF_iff e).mp hw x (List.mem_of_mem_drop hx3)

lemma exprWF_jsRemove {e : List Component} (k : Int) (hw : exprWF e = true) :
    exprWF (jsRemove e k) = true := by
  rw [exprWF_iff]
  intro x hx
  rw [jsRemove] at hx
  rcases List.mem_append.mp hx with hx1 | hx2
  · exact (exprWF_iff e).mp hw x (List.mem_of_mem_take hx1)
  · exact (exprWF_iff e).mp hw x (List.mem_of_mem_drop hx2)

lemma wfc_modifyBlk {k : CKind} {col : String} {bs : List Slot} {b : Nat}
    {f : List Child → List Child} {ch : List Child}
    (hw : (Component.container k col bs).wfc = true) (hbs : bs[b]? = some (.blk ch))
    (hf : compChildrenWF (f ch) = true) :
    ((Component.container k col bs).modifyBlk b f).wfc = true := by
  rw [wfc_container_iff] at hw
  unfold Component.modifyBlk
  rw [wfc_container_iff]
  constructor
  · rw [length_listModify]; exact hw.1
  · rw [slotsWF_iff]
    intro s hs
    unfold listModify at hs
    rw [hbs] at hs
    rcases List.mem_or_eq_of_mem_set hs with hmem | rfl
    · exact (slotsWF_iff bs).mp hw.2 s hmem
    · exact ⟨f ch, rfl, hf⟩

lemma exprWF_modifyBlockAt {e : List Component} {p : CPath} {b : Nat}
    {f : List Child → List Child} {k : CKind} {col : String} {bs : List Slot}
    {ch : List Child} (hw : exprWF e = true)
    (hq : getCompAt e p = some (.container k col bs)) (hbs : bs[b]? = some (.blk ch))
    (hf : compChildrenWF (f ch) = true) : exprWF (modifyBlockAt e p b f) = true := by
  unfold modifyBlockAt
  rw [hq]
  exact exprWF_setCompAt hw hq (wfc_modifyBlk (wfc_of_getCompAt hw hq) hbs hf)

lemma compChildrenWF_of_refs {e : List Component} {k : CKind} {col : String}
    {bs : List Slot} {ch : List Child} {p : CPath} {b : Nat}
    (hw : exprWF e = true) (hq : getCompAt e p = some (.container k col bs))
    (hbs : bs[b]? = some (.blk ch)) : compChildrenWF ch = true := by
  have hcw := wfc_of_getCompAt hw hq
  rw [wfc_container_iff] at hcw
  obtain ⟨ch2, hc2, hwf⟩ := (slotsWF_iff bs).mp hcw.2 _ (List.getElem?_mem hbs)
  rw [Slot.blk.injEq] at hc2
  exact hc2 ▸ hwf

lemma wf_addText (t : String) {s : CursorState} (h : wfState s = true) :
    wfState (addText t s) = true := by
  obtain ⟨e, co, bl, pos, chd, lx⟩ := s
  cases bl with
  | none =>
      obtain ⟨hc, hw, hodd, hge, hle, hch⟩ := wfState_block_none h rfl
      simp only at hc hch
      subst hc
      subst hch
      have hres : addText t ⟨e, none, none, pos, -1, lx⟩ =
          { expression := jsInsert e (ceilIdx pos) (newTextComponent t),
            component := none, block := none, position := pos + 2, child := -1,
            latex := lx } := rfl
      rw [hres]
      simp only at hodd hge hle
      apply wfState_intro_top
      · exact exprWF_jsInsert _ hw (wfc_newTextComponent t)
      · omega
      · omega
      · rw [length_jsInsert]
        push_cast
        omega
  | some pb =>
      rcases pb with ⟨p, b⟩
      obtain ⟨hc, hw, hr⟩ := wfState_block_some h rfl
      simp only at hc
      subst hc
      obtain ⟨k, col, bs, ch, hq, hbs, hodd, hge, hle, hpos⟩ := refsWF_elim hr
      simp only at hq hbs hodd hge hle hpos
      have hres : addText t ⟨e, some p, some (p, b), pos, chd, lx⟩ =
          { expression := modifyBlockAt e p b
              (fun ch => jsInsert ch (ceilIdx chd) (.comp (newTextComponent t))),
            component := some p, block := some (p, b), position := pos,
            child := chd + 2, latex := lx } := rfl
      rw [hres]
      apply wfState_intro_inside
      · exact exprWF_modifyBlockAt hw hq hbs
          (compChildrenWF_jsInsert _ (compChildrenWF_of_refs hw hq hbs)
            (wfc_newTextComponent t))
      · refine refsWF_intro (getCompAt_modifyBlockAt_self b _ hq)
          (listModify_getElem_self bs b _ _ hbs) ?_ ?_ ?_ hpos
        · omega
        · omega
        · rw [length_jsInsert]
          push_cast
          omega


lemma container_first_block {k : CKind} {col : String} {bs : List Slot}
    (hc : (Component.container k col bs).wfc = true) :
    ∃ ch, bs[0]? = some (Slot.blk ch) ∧ compChildrenWF ch = true := by
  rw [wfc_container_iff] at hc
  cases bs with
  | nil => simp at hc
  | cons s r =>
      obtain ⟨ch, hch, hwf⟩ := (slotsWF_iff _).mp hc.2 s (List.mem_cons_self s r)
      subst hch
      exact ⟨ch, by simp, hwf⟩

lemma wf_addComponent (c : Component) (hcw : c.wfc = true) {s : CursorState}
    (h : wfState s = true) : wfState (addComponent c s) = true := by
  obtain ⟨e, co, bl, pos, chd, lx⟩ := s
  cases bl with
  | none =>
      obtain ⟨hc, hw, hodd, hge, hle, hch⟩ := wfState_block_none h rfl
      simp only at hc hch hodd hge hle
      subst hc
      subst hch
      have hceil : ceilIdx pos = (pos + 1) / 2 := rfl
      cases c with
      | symbol ld =>
          have hres : addComponent (.symbol ld) ⟨e, none, none, pos, -1, lx⟩ =
              { expression := jsInsert e (ceilIdx pos) (.symbol ld),
                component := none, block := none,
                position := 2 * ceilIdx pos + 1, child := -1, latex := lx } := rfl
          rw [hres]
          apply wfState_intro_top (exprWF_jsInsert _ hw hcw)
          · omega
          · omega
          · rw [length_jsInsert]; push_cast; omega
      | textC ch0 =>
          have hres : addComponent (.textC ch0) ⟨e, none, none, pos, -1, lx⟩ =
              { expression := jsInsert e (ceilIdx pos) (.textC ch0),
                component := none, block := none,
                position := 2 * ceilIdx pos + 1, child := -1, latex := lx } := rfl
          rw [hres]
          apply wfState_intro_top (exprWF_jsInsert _ hw hcw)
          · omega
          · omega
          · rw [length_jsInsert]; push_cast; omega
      | container k col bs =>
          have hres : addComponent (.container k col bs) ⟨e, none, none, pos, -1, lx⟩ =
              { expression := jsInsert e (ceilIdx pos) (.container k col bs),
                component := some (.top (jsIdx e.length (ceilIdx pos))),
                block := some (.top (jsIdx e.length (ceilIdx pos)), 0),
                position := 2 * ceilIdx pos, child := -1, latex := lx } := rfl
          rw [hres]
          obtain ⟨ch0, hb0, _⟩ := container_first_block hcw
          apply wfState_intro_inside (exprWF_jsInsert _ hw hcw)
          refine @refsWF_intro _ _ _ _ _ k col _ _ ?_ hb0 (by omega) (by omega) (by omega) ?_
          · show (jsInsert e (ceilIdx pos) (.container k col bs))[jsIdx e.length (ceilIdx pos)]? = _
            exact getElem_jsInsert_self e (ceilIdx pos) _
          · show 2 * ceilIdx pos = 2 * ((jsIdx e.length (ceilIdx pos) : Nat) : Int)
            have hiN : jsIdx e.length (ceilIdx pos) = (ceilIdx pos).toNat :=
              jsIdx_of_bounds e.length (ceilIdx pos) (by omega) (by omega)
            rw [hiN]
            omega
  | some pb =>
      rcases pb with ⟨p, b⟩
      obtain ⟨hc, hw, hr⟩ := wfState_block_some h rfl
      simp only at hc
      subst hc
      obtain ⟨k, col, bs, ch, hq, hbs, hodd, hge, hle, hpos⟩ := refsWF_elim hr
      simp only at hq hbs hodd hge hle hpos
      have hget : getBlockAt e p b = some ch := getBlockAt_of_comp hq hbs
      have hgetD : (getBlockAt e p b).getD [] = ch := by rw [hget]; rfl
      have hcwf : compChildrenWF ch = true := compChildrenWF_of_refs hw hq hbs
      cases c with
      | symbol ld =>
          have hres : addComponent (.symbol ld) ⟨e, some p, some (p, b), pos, chd, lx⟩ =
              { expression := modifyBlockAt e p b
                  (fun ch => jsInsert ch (ceilIdx chd) (.comp (.symbol ld))),
                component := some p, block := some (p, b), position := pos,
                child := chd + 2, latex := lx } := rfl
          rw [hres]
          apply wfState_intro_inside
              (exprWF_modifyBlockAt hw hq hbs (compChildrenWF_jsInsert _ hcwf hcw))
          refine refsWF_intro (getCompAt_modifyBlockAt_self b _ hq)
            (listModify_getElem_self bs b _ _ hbs) (by omega) (by omega) ?_ hpos
          rw [length_jsInsert]; push_cast; omega
      | textC ch0 =>
          have hres : addComponent (.textC ch0) ⟨e, some p, some (p, b), pos, chd, lx⟩ =
              { expression := modifyBlockAt e p b
                  (fun ch => jsInsert ch (ceilIdx chd) (.comp (.textC ch0))),
                component := some p, block := some (p, b), position := pos,
                child := chd + 2, latex := lx } := rfl
          rw [hres]
          apply wfState_intro_inside
              (exprWF_modifyBlockAt hw hq hbs (compChildrenWF_jsInsert _ hcwf hcw))
          refine refsWF_intro (getCompAt_modifyBlockAt_self b _ hq)
            (listModify_getElem_self bs b _ _ hbs) (by omega) (by omega) ?_ hpos
          rw [length_jsInsert]; push_cast; omega
      | container k2 col2 bs2 =>
          have hres : addComponent (.container k2 col2 bs2)
                ⟨e, some p, some (p, b), pos, chd, lx⟩ =
              { expression := modifyBlockAt e p b
                  (fun ch => jsInsert ch (ceilIdx chd) (.comp (.container k2 col2 bs2))),
                component := some (.sub p b
                  (jsIdx ((getBlockAt e p b).getD []).length (ceilIdx chd))),
                block := some (.sub p b
                  (jsIdx ((getBlockAt e p b).getD []).length (ceilIdx chd)), 0),
                position := pos, child := -1, latex := lx } := rfl
          rw [hres, hgetD]
          obtain ⟨ch0, hb0, _⟩ := container_first_block hcw
          apply wfState_intro_inside
              (exprWF_modifyBlockAt hw hq hbs (compChildrenWF_jsInsert _ hcwf hcw))
          refine @refsWF_intro _ _ _ _ _ k2 col2 _ _ ?_ hb0 (by omega) (by omega)
            (by omega) ?_
          · have h1 : getCompAt (modifyBlockAt e p b
                (fun ch => jsInsert ch (ceilIdx chd) (.comp (.container k2 col2 bs2)))) p =
                some ((Component.container k col bs).modifyBlk b _) :=
              getCompAt_modifyBlockAt_self b _ hq
            have h2 := blocks_modifyBlk_same (Component.container k col bs) b
              (fun ch => jsInsert ch (ceilIdx chd) (.comp (.container k2 col2 bs2))) ch hbs
            have h3 := getElem_jsInsert_self ch (ceilIdx chd)
              (Child.comp (.container k2 col2 bs2))
            simp only [getCompAt, h1, h2, h3]
          · show pos = 2 * ((CPath.sub p b _).topIdx : Int)
            exact hpos


lemma getD_of_getElem {α : Type} (l : List α) (i : Nat) (d a : α)
    (h : l[i]? = some a) : l.getD i d = a := by
  simp [List.getD_eq_getElem?_getD, h]

lemma idxGet_bounds {α : Type} {l : List α} {i : Int} {a : α}
    (h : idxGet l i = some a) : 0 ≤ i ∧ i < (l.length : Int) := by
  unfold idxGet at h
  by_cases h0 : 0 ≤ i
  · rw [if_pos h0] at h
    have := (List.getElem?_eq_some.mp h).1
    omega
  · rw [if_neg h0] at h
    exact absurd h (by simp)

lemma parent_container_of_sub {e : List Component} {q2 : CPath} {b2 j2 : Nat}
    {c : Component} (hw : exprWF e = true)
    (h : getCompAt e (.sub q2 b2 j2) = some c) :
    ∃ k2 col2 bs2 ch2, getCompAt e q2 = some (.container k2 col2 bs2) ∧
      bs2[b2]? = some (.blk ch2) ∧ ch2[j2]? = some (.comp c) := by
  obtain ⟨parent, ch2, hq, hb, hj⟩ := getCompAt_sub_inv h
  cases parent with
  | symbol l => simp [Component.blocks] at hb
  | textC ch0 =>
      have hpw := wfc_of_getCompAt hw hq
      simp only [Component.blocks] at hb
      cases b2 with
      | zero =>
          simp only [List.getElem?_cons_zero, Option.some.injEq, Slot.blk.injEq] at hb
          subst hb
          have := (List.all_eq_true.mp hpw) _ (List.getElem?_mem hj)
          simp [Child.isStr] at this
      | succ n => simp at hb
  | container k2 col2 bs2 => exact ⟨k2, col2, bs2, ch2, hq, hb, hj⟩

/-- The `backspace` branch for a leaf left neighbor at top level: the JS
call chain reaches `removeComponent`, which deletes the leaf and steps the
address back by one. -/
lemma removeComponent_top_leaf {e : List Component} {pos : Int} {lx : String}
    {prev : Component} (hget : idxGet e (floorIdx pos) = some prev)
    (hleaf : prev.isLeaf = true) :
    removeComponent ⟨e, none, none, pos, -1, lx⟩ =
      ⟨jsRemove e (((floorIdx pos).toNat : Nat) : Int), none, none,
        2 * floorIdx pos - 1, -1, lx⟩ := by
  unfold removeComponent
  simp only [hget, isLeafO]
  rw [if_pos hleaf]
  rfl

lemma backspace_top_leaf {e : List Component} {pos : Int} {lx : String}
    {prev : Component} (hlen : ¬ (e.length = 0)) (hpos : ¬ (pos = -1))
    (hget : idxGet e (floorIdx pos) = some prev) (hleaf : prev.isLeaf = true) :
    backspace ⟨e, none, none, pos, -1, lx⟩ =
      removeComponent ⟨e, none, none, pos, -1, lx⟩ := by
  unfold backspace
  rw [if_neg hlen, if_neg hpos]
  simp only [hget]
  rw [if_pos hleaf]

/-- C5 (amended) core: `backspace` at top level with a container on the
left enters the container at its rightmost address and removes nothing. -/
lemma backspace_top_container {e : List Component} {pos : Int} {lx : String}
    {k : CKind} {col : String} {bs : List Slot}
    (hlen : ¬ (e.length = 0)) (hpos : ¬ (pos = -1))
    (hget : idxGet e (floorIdx pos) = some (.container k col bs)) :
    backspace ⟨e, none, none, pos, -1, lx⟩ =
      ⟨e, some (.top (floorIdx pos).toNat),
        some (.top (floorIdx pos).toNat, bs.length - 1),
        2 * floorIdx pos,
        2 * (((bs.getD (bs.length - 1) (.blk [])).childrenOf.length : Nat) : Int) - 1,
        lx⟩ := by
  unfold backspace
  rw [if_neg hlen, if_neg hpos]
  simp only [hget]
  rw [if_neg (by simp [Component.isLeaf])]
  rfl

lemma wf_backspace {s : CursorState} (h : wfState s = true) :
    wfState (backspace s) = true := by
  obtain ⟨e, co, bl, pos, chd, lx⟩ := s
  by_cases hlen : e.length = 0
  · unfold backspace
    simp only at hlen ⊢
    rw [if_pos hlen]
    exact h
  by_cases hpos1 : pos = -1
  · unfold backspace
    simp only
    rw [if_neg hlen, if_pos hpos1]
    exact h
  cases bl with
  | none =>
      obtain ⟨hc, hw, hodd, hge, hle, hch⟩ := wfState_block_none h rfl
      simp only at hc hch hodd hge hle hw
      subst hc
      subst hch
      have hfl : floorIdx pos = pos / 2 := rfl
      cases hget : idxGet e (floorIdx pos) with
      | none =>
          -- floor(position) is in range for a top-level WF state off the left edge
          exfalso
          unfold idxGet at hget
          rw [if_pos (by rw [hfl]; omega)] at hget
          rw [List.getElem?_eq_none_iff] at hget
          rw [hfl] at hget
          omega
      | some prev =>
          have hbounds := idxGet_bounds hget
          cases hpl : prev.isLeaf with
          | true =>
              rw [backspace_top_leaf hlen hpos1 hget hpl,
                removeComponent_top_leaf hget hpl]
              apply wfState_intro_top (exprWF_jsRemove _ hw)
              · omega
              · omega
              · rw [length_jsRemove_of_lt _ _ (by omega) (by push_cast; omega)]
                push_cast
                omega
          | false =>
              rcases prev with ld | ch0 | ⟨k, col, bs⟩
              · simp [Component.isLeaf] at hpl
              · simp [Component.isLeaf] at hpl
              · rw [backspace_top_container hlen hpos1 hget]
                have hqtop : getCompAt e (.top (floorIdx pos).toNat) =
                    some (.container k col bs) := by
                  show e[(floorIdx pos).toNat]? = _
                  unfold idxGet at hget
                  rw [if_pos (by omega)] at hget
                  exact hget
                have hcw : (Component.container k col bs).wfc = true :=
                  wfc_of_getCompAt hw hqtop
                have hlb : bs.length - 1 < bs.length := by
                  rw [wfc_container_iff] at hcw
                  omega
                have hbs : ∃ ch, bs[bs.length - 1]? = some (.blk ch) := by
                  rw [wfc_container_iff] at hcw
                  cases hsl : bs[bs.length - 1]? with
                  | none => rw [List.getElem?_eq_none_iff] at hsl; omega
                  | some sl =>
                      obtain ⟨ch, hch2, _⟩ :=
                        (slotsWF_iff bs).mp hcw.2 sl (List.getElem?_mem hsl)
                      exact ⟨ch, by rw [hch2]⟩
                obtain ⟨ch, hbs⟩ := hbs
                have hgetD : (bs.getD (bs.length - 1) (.blk [])).childrenOf = ch := by
                  rw [getD_of_getElem bs (bs.length - 1) (.blk []) _ hbs]
                  rfl
                apply wfState_intro_inside hw
                refine @refsWF_intro _ _ _ _ _ k col _ _ hqtop hbs ?_ ?_ ?_ ?_
                · rw [hgetD]; omega
                · rw [hgetD]; omega
                · rw [hgetD]
                · show 2 * floorIdx pos = 2 * (((floorIdx pos).toNat : Nat) : Int)
                  omega
  | some pb =>
      rcases pb with ⟨p, b⟩
      obtain ⟨hc, hw, hr⟩ := wfState_block_some h rfl
      simp only at hc hw
      subst hc
      obtain ⟨k, col, bs, ch, hq, hbs, hodd, hge, hle, hposx⟩ := refsWF_elim hr
      simp only at hq hbs hodd hge hle hposx
      unfold backspace
      simp only
      rw [if_neg hlen, if_neg hpos1]
      simp only [hq]
      by_cases hemp : (Component.container k col bs).isEmptyC = true
      · rw [if_pos hemp]
        -- removeComponent with the cursor inside: removeComponentRest
        show wfState (removeComponentRest ⟨e, some p, some (p, b), pos, chd, lx⟩) = true
        cases p with
        | top i =>
            have hres : removeComponentRest ⟨e, some (.top i), some (.top i, b), pos, chd, lx⟩ =
                ⟨jsRemove e ((i : Nat) : Int), none, none, pos - 1, -1, lx⟩ := rfl
            rw [hres]
            have hi : i < e.length := by
              have := (List.getElem?_eq_some.mp (show e[i]? = _ from hq)).1
              exact this
            apply wfState_intro_top (exprWF_jsRemove _ hw)
            · simp only [CPath.topIdx] at hposx; omega
            · simp only [CPath.topIdx] at hposx; omega
            · rw [length_jsRemove_of_lt _ _ (by omega) (by push_cast; omega)]
              simp only [CPath.topIdx] at hposx
              push_cast
              omega
        | sub q2 b2 j2 =>
            have hres : removeComponentRest
                  ⟨e, some (.sub q2 b2 j2), some (.sub q2 b2 j2, b), pos, chd, lx⟩ =
                ⟨modifyBlockAt e q2 b2 (fun ch => jsRemove ch ((j2 : Nat) : Int)),
                  some q2, some (q2, b2), pos, 2 * ((j2 : Nat) : Int) - 1, lx⟩ := rfl
            rw [hres]
            obtain ⟨k2, col2, bs2, ch2, hq2, hbs2, hj2⟩ := parent_container_of_sub hw hq
            have hj2lt : j2 < ch2.length := (List.getElem?_eq_some.mp hj2).1
            apply wfState_intro_inside
            · exact exprWF_modifyBlockAt hw hq2 hbs2
                (compChildrenWF_jsRemove _ (compChildrenWF_of_refs hw hq2 hbs2))
            · refine refsWF_intro (getCompAt_modifyBlockAt_self b2 _ hq2)
                (listModify_getElem_self bs2 b2 _ _ hbs2) (by omega) (by omega) ?_ ?_
              · rw [length_jsRemove_of_lt _ _ (by omega) (by push_cast; omega)]
                push_cast
                omega
              · simp only [CPath.topIdx] at hposx ⊢
                exact hposx
      · rw [if_neg hemp]
        by_cases hchd : chd ≤ -1
        · rw [if_pos hchd]
          by_cases hb0 : b = 0
          · rw [if_pos hb0]
            exact h
          · rw [if_neg hb0]
            have hblt : b < bs.length := (List.getElem?_eq_some.mp hbs).1
            have hcw : (Component.container k col bs).wfc = true := wfc_of_getCompAt hw hq
            have hbs2 : ∃ ch2, bs[b - 1]? = some (.blk ch2) := by
              rw [wfc_container_iff] at hcw
              cases hsl : bs[b - 1]? with
              | none => rw [List.getElem?_eq_none_iff] at hsl; omega
              | some sl =>
                  obtain ⟨ch2, hch2, _⟩ :=
                    (slotsWF_iff bs).mp hcw.2 sl (List.getElem?_mem hsl)
                  exact ⟨ch2, by rw [hch2]⟩
            obtain ⟨ch2, hbs2⟩ := hbs2
            have hgetD : ((Component.container k col bs).blocks.getD (b - 1)
                (.blk [])).childrenOf = ch2 := by
              show (bs.getD (b - 1) (.blk [])).childrenOf = ch2
              rw [getD_of_getElem bs (b - 1) (.blk []) _ hbs2]
              rfl
            rw [hgetD]
            apply wfState_intro_inside hw
            exact refsWF_intro hq hbs2 (by omega) (by omega) (by omega) hposx
        · rw [if_neg hchd]
          apply wfState_intro_inside
          · exact exprWF_modifyBlockAt hw hq hbs
              (compChildrenWF_jsRemove _ (compChildrenWF_of_refs hw hq hbs))
          · refine refsWF_intro (getCompAt_modifyBlockAt_self b _ hq)
              (listModify_getElem_self bs b _ _ hbs) (by omega) (by omega) ?_ hposx
            have hfl : floorIdx chd = chd / 2 := rfl
            rw [length_jsRemove_of_lt _ _ (by rw [hfl]; omega)
              (by rw [hfl]; push_cast; omega)]
            push_cast
            omega


/-!  Branch characterizations of `seekRight` (R1..R7) and `seekLeft`
(L1..L7), under the hypotheses that select each branch. -/

lemma seekRight_noop {s : CursorState}
    (h : s.position ≥ 2 * (s.expression.length : Int) - 1) : seekRight s = s := by
  unfold seekRight
  rw [if_pos h]

lemma seekLeft_noop {s : CursorState} (h : s.position ≤ -1) : seekLeft s = s := by
  unfold seekLeft
  rw [if_pos h]

lemma seekRight_top_leaf {e : List Component} {co : Option CPath} {pos chd : Int}
    {lx : String} {c : Component}
    (hlt : ¬ (pos ≥ 2 * (e.length : Int) - 1))
    (hc : compAt e (pos + 1) = some c) (hl : c.isLeaf = true) :
    seekRight ⟨e, co, none, pos, chd, lx⟩ = ⟨e, none, none, pos + 2, -1, lx⟩ := by
  unfold seekRight
  rw [if_neg hlt]
  simp only [hc]
  rw [if_pos hl]
  show CursorState.mk e none none (pos + 1 + 1) (-1) lx = _
  congr 1
  omega

lemma seekRight_top_container {e : List Component} {co : Option CPath} {pos chd : Int}
    {lx : String} {c : Component}
    (hlt : ¬ (pos ≥ 2 * (e.length : Int) - 1))
    (hc : compAt e (pos + 1) = some c) (hl : c.isLeaf = false) :
    seekRight ⟨e, co, none, pos, chd, lx⟩ =
      ⟨e, some (.top ((pos + 1) / 2).toNat), some (.top ((pos + 1) / 2).toNat, 0),
        pos + 1, -1, lx⟩ := by
  unfold seekRight
  rw [if_neg hlt]
  simp only [hc]
  rw [if_neg (by rw [hl]; simp)]

lemma seekRight_exit_top {e : List Component} {i : Nat} {b : Nat} {p : CPath}
    {pos chd : Int} {lx : String} {ch : List Child} {comp : Component}
    (hlt : ¬ (pos ≥ 2 * (e.length : Int) - 1))
    (hblk : getBlockAt e p b = some ch) (hend : chd = 2 * (ch.length : Int) - 1)
    (hq : getCompAt e (.top i) = some comp) (hlast : b = comp.blocks.length - 1) :
    seekRight ⟨e, some (.top i), some (p, b), pos, chd, lx⟩ =
      ⟨e, none, none, pos + 1, -1, lx⟩ := by
  unfold seekRight
  rw [if_neg hlt]
  have hgd : (getBlockAt e p b).getD [] = ch := by rw [hblk]; rfl
  simp only [hgd]
  rw [if_pos hend]
  simp only [hq]
  rw [if_pos hlast]

lemma seekRight_exit_sub {e : List Component} {q2 : CPath} {b2 j2 : Nat} {b : Nat}
    {p : CPath} {pos chd : Int} {lx : String} {ch : List Child} {comp : Component}
    (hlt : ¬ (pos ≥ 2 * (e.length : Int) - 1))
    (hblk : getBlockAt e p b = some ch) (hend : chd = 2 * (ch.length : Int) - 1)
    (hq : getCompAt e (.sub q2 b2 j2) = some comp)
    (hlast : b = comp.blocks.length - 1) :
    seekRight ⟨e, some (.sub q2 b2 j2), some (p, b), pos, chd, lx⟩ =
      ⟨e, some q2, some (q2, b2), pos, 2 * ((j2 : Nat) : Int) + 1, lx⟩ := by
  unfold seekRight
  rw [if_neg hlt]
  have hgd : (getBlockAt e p b).getD [] = ch := by rw [hblk]; rfl
  simp only [hgd]
  rw [if_pos hend]
  simp only [hq]
  rw [if_pos hlast]

lemma seekRight_next_block {e : List Component} {q : CPath} {b : Nat} {p : CPath}
    {pos chd : Int} {lx : String} {ch : List Child} {comp : Component}
    (hlt : ¬ (pos ≥ 2 * (e.length : Int) - 1))
    (hblk : getBlockAt e p b = some ch) (hend : chd = 2 * (ch.length : Int) - 1)
    (hq : getCompAt e q = some comp) (hlast : ¬ (b = comp.blocks.length - 1)) :
    seekRight ⟨e, some q, some (p, b), pos, chd, lx⟩ =
      ⟨e, some q, some (q, b + 1), pos, -1, lx⟩ := by
  unfold seekRight
  rw [if_neg hlt]
  have hgd : (getBlockAt e p b).getD [] = ch := by rw [hblk]; rfl
  simp only [hgd]
  rw [if_pos hend]
  simp only [hq]
  rw [if_neg hlast]

lemma seekRight_skip_leaf {e : List Component} {q : CPath} {b : Nat} {p : CPath}
    {pos chd : Int} {lx : String} {ch : List Child} {c : Component}
    (hlt : ¬ (pos ≥ 2 * (e.length : Int) - 1))
    (hblk : getBlockAt e p b = some ch) (hend : ¬ (chd = 2 * (ch.length : Int) - 1))
    (hnext : idxGet ch (ceilIdx chd) = some (.comp c)) (hl : c.isLeaf = true) :
    seekRight ⟨e, some q, some (p, b), pos, chd, lx⟩ =
      ⟨e, some q, some (p, b), pos, chd + 2, lx⟩ := by
  unfold seekRight
  rw [if_neg hlt]
  have hgd : (getBlockAt e p b).getD [] = ch := by rw [hblk]; rfl
  simp only [hgd]
  rw [if_neg hend]
  simp only [hnext]
  rw [if_pos hl]

lemma seekRight_enter_child {e : List Component} {q : CPath} {b : Nat} {p : CPath}
    {pos chd : Int} {lx : String} {ch : List Child} {c : Component}
    (hlt : ¬ (pos ≥ 2 * (e.length : Int) - 1))
    (hblk : getBlockAt e p b = some ch) (hend : ¬ (chd = 2 * (ch.length : Int) - 1))
    (hnext : idxGet ch (ceilIdx chd) = some (.comp c)) (hl : c.isLeaf = false) :
    seekRight ⟨e, some q, some (p, b), pos, chd, lx⟩ =
      ⟨e, some (.sub p b (ceilIdx chd).toNat), some (.sub p b (ceilIdx chd).toNat, 0),
        pos, -1, lx⟩ := by
  unfold seekRight
  rw [if_neg hlt]
  have hgd : (getBlockAt e p b).getD [] = ch := by rw [hblk]; rfl
  simp only [hgd]
  rw [if_neg hend]
  simp only [hnext]
  rw [if_neg (by rw [hl]; simp)]

lemma seekLeft_top_leaf {e : List Component} {co : Option CPath} {pos chd : Int}
    {lx : String} {c : Component} (hgt : ¬ (pos ≤ -1))
    (hc : compAt e (pos - 1) = some c) (hl : c.isLeaf = true) :
    seekLeft ⟨e, co, none, pos, chd, lx⟩ = ⟨e, none, none, pos - 2, -1, lx⟩ := by
  unfold seekLeft
  rw [if_neg hgt]
  simp only [hc]
  rw [if_pos hl]
  show CursorState.mk e none none (pos - 1 - 1) (-1) lx = _
  congr 1
  omega

lemma seekLeft_top_container {e : List Component} {co : Option CPath} {pos chd : Int}
    {lx : String} {c : Component} (hgt : ¬ (pos ≤ -1))
    (hc : compAt e (pos - 1) = some c) (hl : c.isLeaf = false) :
    seekLeft ⟨e, co, none, pos, chd, lx⟩ =
      ⟨e, some (.top ((pos - 1) / 2).toNat),
        some (.top ((pos - 1) / 2).toNat, c.blocks.length - 1), pos - 1,
        2 * (((c.blocks.getD (c.blocks.length - 1) (.blk [])).childrenOf.length : Nat) : Int) - 1,
        lx⟩ := by
  unfold seekLeft
  rw [if_neg hgt]
  simp only [hc]
  rw [if_neg (by rw [hl]; simp)]

lemma seekLeft_exit_top {e : List Component} {i : Nat} {p : CPath}
    {pos chd : Int} {lx : String} (hgt : ¬ (pos ≤ -1)) (hstart : chd = -1) :
    seekLeft ⟨e, some (.top i), some (p, 0), pos, chd, lx⟩ =
      ⟨e, none, none, pos - 1, -1, lx⟩ := by
  subst hstart
  unfold seekLeft
  rw [if_neg hgt]
  rfl

lemma seekLeft_exit_sub {e : List Component} {q2 : CPath} {b2 j2 : Nat} {p : CPath}
    {pos chd : Int} {lx : String} (hgt : ¬ (pos ≤ -1)) (hstart : chd = -1) :
    seekLeft ⟨e, some (.sub q2 b2 j2), some (p, 0), pos, chd, lx⟩ =
      ⟨e, some q2, some (q2, b2), pos, 2 * ((j2 : Nat) : Int) - 1, lx⟩ := by
  subst hstart
  unfold seekLeft
  rw [if_neg hgt]
  rfl

lemma seekLeft_prev_block {e : List Component} {q : CPath} {b : Nat} {p : CPath}
    {pos chd : Int} {lx : String} {comp : Component} (hgt : ¬ (pos ≤ -1))
    (hstart : chd = -1) (hb0 : ¬ (b = 0)) (hq : getCompAt e q = some comp) :
    seekLeft ⟨e, some q, some (p, b), pos, chd, lx⟩ =
      ⟨e, some q, some (q, b - 1), pos,
        2 * (((comp.blocks.getD (b - 1) (.blk [])).childrenOf.length : Nat) : Int) - 1,
        lx⟩ := by
  subst hstart
  simp only [seekLeft, hq]
  rw [if_neg hgt, if_neg hb0]
  simp

lemma seekLeft_skip_leaf {e : List Component} {q : CPath} {b : Nat} {p : CPath}
    {pos chd : Int} {lx : String} {ch : List Child} {c : Component}
    (hgt : ¬ (pos ≤ -1)) (hstart : ¬ (chd = -1))
    (hblk : getBlockAt e p b = some ch)
    (hprev : idxGet ch (floorIdx chd) = some (.comp c)) (hl : c.isLeaf = true) :
    seekLeft ⟨e, some q, some (p, b), pos, chd, lx⟩ =
      ⟨e, some q, some (p, b), pos, chd - 2, lx⟩ := by
  simp only [seekLeft]
  rw [if_neg hgt, if_neg hstart]
  have hgd : (getBlockAt e p b).getD [] = ch := by rw [hblk]; rfl
  simp only [hgd, hprev]
  rw [if_pos hl]

lemma seekLeft_enter_child {e : List Component} {q : CPath} {b : Nat} {p : CPath}
    {pos chd : Int} {lx : String} {ch : List Child} {c : Component}
    (hgt : ¬ (pos ≤ -1)) (hstart : ¬ (chd = -1))
    (hblk : getBlockAt e p b = some ch)
    (hprev : idxGet ch (floorIdx chd) = some (.comp c)) (hl : c.isLeaf = false) :
    seekLeft ⟨e, some q, some (p, b), pos, chd, lx⟩ =
      ⟨e, some (.sub p b (floorIdx chd).toNat),
        some (.sub p b (floorIdx chd).toNat, c.blocks.length - 1), pos,
        2 * (((c.blocks.getD (c.blocks.length - 1) (.blk [])).childrenOf.length : Nat) : Int) - 1,
        lx⟩ := by
  simp only [seekLeft]
  rw [if_neg hgt, if_neg hstart]
  have hgd : (getBlockAt e p b).getD [] = ch := by rw [hblk]; rfl
  simp only [hgd, hprev]
  rw [if_neg (by rw [hl]; simp)]


lemma idxGet_eq_some {α : Type} (l : List α) (i : Int) (h0 : 0 ≤ i)
    (h1 : i < (l.length : Int)) : ∃ a, idxGet l i = some a := by
  unfold idxGet
  rw [if_pos h0]
  cases h : l[i.toNat]? with
  | none => rw [List.getElem?_eq_none_iff] at h; omega
  | some a => exact ⟨a, rfl⟩

lemma idxGet_getElem {α : Type} {l : List α} {i : Int} {a : α}
    (h : idxGet l i = some a) : l[i.toNat]? = some a := by
  unfold idxGet at h
  by_cases h0 : 0 ≤ i
  · rw [if_pos h0] at h; exact h
  · rw [if_neg h0] at h; exact absurd h (by simp)

lemma compAt_even (e : List Component) (a : Int) (hk : a % 2 = 0) :
    compAt e a = idxGet e (a / 2) := by
  unfold compAt
  rw [if_pos hk]

lemma child_comp_of_wf {ch : List Child} {x : Child} {i : Int}
    (hwf : compChildrenWF ch = true) (h : idxGet ch i = some x) :
    ∃ c, x = Child.comp c ∧ c.wfc = true :=
  (compChildrenWF_iff ch).mp hwf x (List.getElem?_mem (idxGet_getElem h))

lemma last_block_of_container {k : CKind} {col : String} {bs : List Slot}
    (hcw : (Component.container k col bs).wfc = true) (b : Nat) (hb : b < bs.length) :
    ∃ ch, bs[b]? = some (Slot.blk ch) ∧ compChildrenWF ch = true := by
  rw [wfc_container_iff] at hcw
  cases hsl : bs[b]? with
  | none => rw [List.getElem?_eq_none_iff] at hsl; omega
  | some sl =>
      obtain ⟨ch, hch2, hwf⟩ := (slotsWF_iff bs).mp hcw.2 sl (List.getElem?_mem hsl)
      exact ⟨ch, by rw [hch2], hwf⟩

lemma wf_seekRight {s : CursorState} (h : wfState s = true) :
    wfState (seekRight s) = true := by
  obtain ⟨e, co, bl, pos, chd, lx⟩ := s
  by_cases hlt : pos ≥ 2 * (e.length : Int) - 1
  · rw [seekRight_noop hlt]
    exact h
  cases bl with
  | none =>
      obtain ⟨hc, hw, hodd, hge, hle, hch⟩ := wfState_block_none h rfl
      simp only at hc hch hodd hge hle hw
      subst hc
      subst hch
      have hev : (pos + 1) % 2 = 0 := by omega
      obtain ⟨c, hcg⟩ := idxGet_eq_some e ((pos + 1) / 2) (by omega) (by omega)
      have hca : compAt e (pos + 1) = some c := by rw [compAt_even e _ hev]; exact hcg
      have hqt : getCompAt e (.top ((pos + 1) / 2).toNat) = some c := idxGet_getElem hcg
      cases hcl : c.isLeaf with
      | true =>
          rw [seekRight_top_leaf hlt hca hcl]
          apply wfState_intro_top hw (by omega) (by omega) (by omega)
      | false =>
          rw [seekRight_top_container hlt hca hcl]
          rcases c with ld | ch0 | ⟨k, col, bs⟩
          · simp [Component.isLeaf] at hcl
          · simp [Component.isLeaf] at hcl
          · have hcw := wfc_of_getCompAt hw hqt
            obtain ⟨ch0, hb0, _⟩ := container_first_block hcw
            apply wfState_intro_inside hw
            refine refsWF_intro hqt hb0 (by omega) (by omega) (by omega) ?_
            show pos + 1 = 2 * ((((pos + 1) / 2).toNat : Nat) : Int)
            omega
  | some pb =>
      rcases pb with ⟨p, b⟩
      obtain ⟨hc, hw, hr⟩ := wfState_block_some h rfl
      simp only at hc hw
      subst hc
      obtain ⟨k, col, bs, ch, hq, hbs, hodd, hge, hle, hposx⟩ := refsWF_elim hr
      simp only at hq hbs hodd hge hle hposx
      have hblk : getBlockAt e p b = some ch := getBlockAt_of_comp hq hbs
      have hblt : b < bs.length := (List.getElem?_eq_some.mp hbs).1
      have hcw : (Component.container k col bs).wfc = true := wfc_of_getCompAt hw hq
      by_cases hend : chd = 2 * (ch.length : Int) - 1
      · by_cases hlast : b = (Component.container k col bs).blocks.length - 1
        · cases p with
          | top i =>
              rw [seekRight_exit_top hlt hblk hend hq hlast]
              have hi : i < e.length := (List.getElem?_eq_some.mp
                (show e[i]? = _ from hq)).1
              simp only [CPath.topIdx] at hposx
              apply wfState_intro_top hw (by omega) (by omega) (by push_cast; omega)
          | sub q2 b2 j2 =>
              rw [seekRight_exit_sub hlt hblk hend hq hlast]
              obtain ⟨k2, col2, bs2, ch2, hq2, hbs2, hj2⟩ := parent_container_of_sub hw hq
              have hj2lt : j2 < ch2.length := (List.getElem?_eq_some.mp hj2).1
              apply wfState_intro_inside hw
              refine refsWF_intro hq2 hbs2 (by omega) (by omega) (by push_cast; omega) ?_
              simp only [CPath.topIdx] at hposx
              exact hposx
        · rw [seekRight_next_block hlt hblk hend hq hlast]
          simp only [Component.blocks] at hlast
          obtain ⟨ch2, hbs2, _⟩ := last_block_of_container hcw (b + 1) (by omega)
          apply wfState_intro_inside hw
          exact refsWF_intro hq hbs2 (by omega) (by omega) (by omega) hposx
      · have hcc : compChildrenWF ch = true := compChildrenWF_of_refs hw hq hbs
        obtain ⟨x, hx⟩ := idxGet_eq_some ch (ceilIdx chd) (by
            show 0 ≤ (chd + 1) / 2
            omega)
          (by show (chd + 1) / 2 < _; omega)
        obtain ⟨c, rfl, hcwf⟩ := child_comp_of_wf hcc hx
        cases hcl : c.isLeaf with
        | true =>
            rw [seekRight_skip_leaf hlt hblk hend hx hcl]
            apply wfState_intro_inside hw
            exact refsWF_intro hq hbs (by omega) (by omega) (by omega) hposx
        | false =>
            rw [seekRight_enter_child hlt hblk hend hx hcl]
            rcases c with ld | ch0 | ⟨k2, col2, bs2⟩
            · simp [Component.isLeaf] at hcl
            · simp [Component.isLeaf] at hcl
            · have hsub : getCompAt e (.sub p b (ceilIdx chd).toNat) =
                  some (.container k2 col2 bs2) := by
                have hget2 : ch[(ceilIdx chd).toNat]? = some (.comp (.container k2 col2 bs2)) :=
                  idxGet_getElem hx
                simp only [getCompAt, hq, Component.blocks, hbs, hget2]
              obtain ⟨ch0, hb0, _⟩ := container_first_block hcwf
              apply wfState_intro_inside hw
              refine refsWF_intro hsub hb0 (by omega) (by omega) (by omega) ?_
              show pos = 2 * ((CPath.sub p b (ceilIdx chd).toNat).topIdx : Int)
              simp only [CPath.topIdx]
              exact hposx

lemma wf_seekLeft {s : CursorState} (h : wfState s = true) :
    wfState (seekLeft s) = true := by
  obtain ⟨e, co, bl, pos, chd, lx⟩ := s
  by_cases hgt : pos ≤ -1
  · rw [seekLeft_noop hgt]
    exact h
  cases bl with
  | none =>
      obtain ⟨hc, hw, hodd, hge, hle, hch⟩ := wfState_block_none h rfl
      simp only at hc hch hodd hge hle hw
      subst hc
      subst hch
      have hev : (pos - 1) % 2 = 0 := by omega
      obtain ⟨c, hcg⟩ := idxGet_eq_some e ((pos - 1) / 2) (by omega) (by omega)
      have hca : compAt e (pos - 1) = some c := by rw [compAt_even e _ hev]; exact hcg
      have hqt : getCompAt e (.top ((pos - 1) / 2).toNat) = some c := idxGet_getElem hcg
      cases hcl : c.isLeaf with
      | true =>
          rw [seekLeft_top_leaf hgt hca hcl]
          apply wfState_intro_top hw (by omega) (by omega) (by omega)
      | false =>
          rw [seekLeft_top_container hgt hca hcl]
          rcases c with ld | ch0 | ⟨k, col, bs⟩
          · simp [Component.isLeaf] at hcl
          · simp [Component.isLeaf] at hcl
          · have hcw := wfc_of_getCompAt hw hqt
            have hlen1 : 1 ≤ bs.length := by
              rw [wfc_container_iff] at hcw
              exact hcw.1
            obtain ⟨chL, hbL, _⟩ := last_block_of_container hcw
              ((Component.container k col bs).blocks.length - 1) (by
                simp only [Component.blocks]
                omega)
            have hgetD : (((Component.container k col bs).blocks.getD
                ((Component.container k col bs).blocks.length - 1) (.blk [])).childrenOf) =
                chL := by
              simp only [Component.blocks] at hbL ⊢
              rw [getD_of_getElem bs (bs.length - 1) (.blk []) _ hbL]
              rfl
            rw [hgetD]
            apply wfState_intro_inside hw
            refine refsWF_intro hqt (by simp only [Component.blocks] at hbL ⊢; exact hbL)
              (by omega) (by omega) (by omega) ?_
            show pos - 1 = 2 * ((((pos - 1) / 2).toNat : Nat) : Int)
            omega
  | some pb =>
      rcases pb with ⟨p, b⟩
      obtain ⟨hc, hw, hr⟩ := wfState_block_some h rfl
      simp only at hc hw
      subst hc
      obtain ⟨k, col, bs, ch, hq, hbs, hodd, hge, hle, hposx⟩ := refsWF_elim hr
      simp only at hq hbs hodd hge hle hposx
      have hblk : getBlockAt e p b = some ch := getBlockAt_of_comp hq hbs
      have hblt : b < bs.length := (List.getElem?_eq_some.mp hbs).1
      have hcw : (Component.container k col bs).wfc = true := wfc_of_getCompAt hw hq
      by_cases hstart : chd = -1
      · by_cases hb0 : b = 0
        · subst hb0
          cases p with
          | top i =>
              rw [seekLeft_exit_top hgt hstart]
              simp only [CPath.topIdx] at hposx
              have hi : i < e.length := (List.getElem?_eq_some.mp
                (show e[i]? = _ from hq)).1
              apply wfState_intro_top hw (by omega) (by omega) (by push_cast; omega)
          | sub q2 b2 j2 =>
              rw [seekLeft_exit_sub hgt hstart]
              obtain ⟨k2, col2, bs2, ch2, hq2, hbs2, hj2⟩ := parent_container_of_sub hw hq
              have hj2lt : j2 < ch2.length := (List.getElem?_eq_some.mp hj2).1
              apply wfState_intro_inside hw
              refine refsWF_intro hq2 hbs2 (by omega) (by omega) (by push_cast; omega) ?_
              simp only [CPath.topIdx] at hposx
              exact hposx
        · rw [seekLeft_prev_block hgt hstart hb0 hq]
          obtain ⟨ch2, hbs2, _⟩ := last_block_of_container hcw (b - 1) (by omega)
          have hgetD : (((Component.container k col bs).blocks.getD (b - 1)
              (.blk [])).childrenOf) = ch2 := by
            simp only [Component.blocks]
            rw [getD_of_getElem bs (b - 1) (.blk []) _ hbs2]
            rfl
          rw [hgetD]
          apply wfState_intro_inside hw
          exact refsWF_intro hq hbs2 (by omega) (by omega) (by omega) hposx
      · have hcc : compChildrenWF ch = true := compChildrenWF_of_refs hw hq hbs
        obtain ⟨x, hx⟩ := idxGet_eq_some ch (floorIdx chd) (by
            show 0 ≤ chd / 2
            omega)
          (by show chd / 2 < _; omega)
        obtain ⟨c, rfl, hcwf⟩ := child_comp_of_wf hcc hx
        cases hcl : c.isLeaf with
        | true =>
            rw [seekLeft_skip_leaf hgt hstart hblk hx hcl]
            apply wfState_intro_inside hw
            exact refsWF_intro hq hbs (by omega) (by omega) (by omega) hposx
        | false =>
            rw [seekLeft_enter_child hgt hstart hblk hx hcl]
            rcases c with ld | ch0 | ⟨k2, col2, bs2⟩
            · simp [Component.isLeaf] at hcl
            · simp [Component.isLeaf] at hcl
            · have hsub : getCompAt e (.sub p b (floorIdx chd).toNat) =
                  some (.container k2 col2 bs2) := by
                have hget2 : ch[(floorIdx chd).toNat]? =
                    some (.comp (.container k2 col2 bs2)) := idxGet_getElem hx
                simp only [getCompAt, hq, Component.blocks, hbs, hget2]
              have hlen1 : 1 ≤ bs2.length := by
                rw [wfc_container_iff] at hcwf
                exact hcwf.1
              obtain ⟨chL, hbL, _⟩ := last_block_of_container hcwf
                ((Component.container k2 col2 bs2).blocks.length - 1) (by
                  simp only [Component.blocks]
                  omega)
              have hgetD : (((Component.container k2 col2 bs2).blocks.getD
                  ((Component.container k2 col2 bs2).blocks.length - 1)
                  (.blk [])).childrenOf) = chL := by
                simp only [Component.blocks] at hbL ⊢
                rw [getD_of_getElem bs2 (bs2.length - 1) (.blk []) _ hbL]
                rfl
              rw [hgetD]
              apply wfState_intro_inside hw
              refine refsWF_intro hsub
                (by simp only [Component.blocks] at hbL ⊢; exact hbL)
                (by omega) (by omega) (by omega) ?_
              show pos = 2 * ((CPath.sub p b (floorIdx chd).toNat).topIdx : Int)
              simp only [CPath.topIdx]
              exact hposx


lemma wf_initial : wfState initialCursor = true := by decide

/-- Every state reachable through the public operations is well-formed. -/
lemma wf_reachable {s : CursorState} (h : Reachable s) : wfState s = true := by
  induction h with
  | init => exact wf_initial
  | text t _ ih => exact wf_addText t ih
  | comp c hc _ ih => exact wf_addComponent c hc ih
  | back _ ih => exact wf_backspace ih
  | left _ ih => exact wf_seekLeft ih
  | right _ ih => exact wf_seekRight ih

/-- C10. For every state reachable from the initial state by any sequence of
`addText`, `addComponent`, `backspace`, `seekLeft` and `seekRight`, the
cursor's `block` and `component` references are null together:
`cursor.block === null` iff `cursor.component === null`. -/
theorem C10_refs_null_iff {s : CursorState} (h : Reachable s) :
    (s.block = none ↔ s.component = none) := by
  have hw := wf_reachable h
  constructor
  · intro hb
    exact (wfState_block_none hw hb).1
  · intro hc
    exact wfState_comp_none hw hc

/-- C10 witness: the invariant instantiated at a concrete reachable state,
one `addComponent` then one `seekRight` past the inserted square root. -/
theorem C10_witness :
    ((seekRight (addComponent (newSqrt "red") initialCursor)).block = none ↔
      (seekRight (addComponent (newSqrt "red") initialCursor)).component = none) :=
  C10_refs_null_iff
    (Reachable.right (Reachable.comp (newSqrt "red") rfl Reachable.init))

/-- C6 (counterexample). The claim says both address fields rest at
half-integers after every completed operation.  But `addComponent` with a
non-leaf component at top level executes `this.position = Math.ceil(this.position)`
and leaves the cursor inside the new component with `position = 0`, an
integer (doubled addressing: an even value), in the resting state. -/
theorem C6_counterexample :
    Reachable (addComponent (newSqrt "red") initialCursor) ∧
    (addComponent (newSqrt "red") initialCursor).position % 2 = 0 ∧
    (addComponent (newSqrt "red") initialCursor).block ≠ none :=
  ⟨Reachable.comp (newSqrt "red") rfl Reachable.init, by decide, by decide⟩

/-- C6 (amended). After every completed cursor operation: `child` is always a
half-integer (odd in doubled addressing); `position` is a half-integer
whenever the cursor rests at top level (`block === null`); but when the
cursor rests inside a component, `position` is the integer index (even in
doubled addressing) of the enclosing top-level component. -/
theorem C6_resting_addresses {s : CursorState} (h : Reachable s) :
    s.child % 2 = 1 ∧
    (s.block = none → s.position % 2 = 1) ∧
    (s.block ≠ none → s.position % 2 = 0) := by
  have hw := wf_reachable h
  refine ⟨?_, ?_, ?_⟩
  · cases hb : s.block with
    | none => rw [(wfState_block_none hw hb).2.2.2.2.2]; decide
    | some pb =>
        rcases pb with ⟨p, b⟩
        obtain ⟨_, _, hr⟩ := wfState_block_some hw hb
        obtain ⟨_, _, _, _, _, _, hodd, _, _, _⟩ := refsWF_elim hr
        exact hodd
  · intro hb
    exact (wfState_block_none hw hb).2.2.1
  · intro hb
    cases hbs : s.block with
    | none => exact absurd hbs hb
    | some pb =>
        rcases pb with ⟨p, b⟩
        obtain ⟨_, _, hr⟩ := wfState_block_some hw hbs
        obtain ⟨_, _, _, _, _, _, _, _, _, hpos⟩ := refsWF_elim hr
        omega

/-- C6 witness: the amended statement at a concrete reachable state (a text
leaf inserted at top level). -/
theorem C6_witness :
    (addText "a" initialCursor).child % 2 = 1 ∧
    ((addText "a" initialCursor).block = none →
      (addText "a" initialCursor).position % 2 = 1) ∧
    ((addText "a" initialCursor).block ≠ none →
      (addText "a" initialCursor).position % 2 = 0) :=
  C6_resting_addresses (Reachable.text "a" Reachable.init)


/-- C4. `addComponent`: for every well-formed resting cursor state and every
palette-built component `c`: inserting a leaf (Symbol or Text) inserts it at
the current address and advances the cursor one step past it, leaving
`block` and `component` referring to the same containers as before;
inserting a non-leaf component inserts it at the current address and the
cursor enters it: `component` becomes the inserted node, `block` its first
Block (`blocks[0]`), and `child` resets to -0.5 (doubled: -1). -/
theorem C4_addComponent_spec (c : Component) (s : CursorState)
    (hw : wfState s = true) (hc : c.wfc = true) :
    (s.block = none → c.isLeaf = true →
      addComponent c s = { s with
        expression := jsInsert s.expression (ceilIdx s.position) c,
        position := s.position + 2, child := -1 }) ∧
    (s.block = none → c.isLeaf = false →
      addComponent c s = { s with
        expression := jsInsert s.expression (ceilIdx s.position) c,
        component := some (.top (ceilIdx s.position).toNat),
        block := some (.top (ceilIdx s.position).toNat, 0),
        position := 2 * ceilIdx s.position, child := -1 } ∧
      getCompAt (addComponent c s).expression (.top (ceilIdx s.position).toNat) =
        some c) ∧
    (∀ p b, s.block = some (p, b) → c.isLeaf = true →
      addComponent c s = { s with
        expression := modifyBlockAt s.expression p b
          (fun ch => jsInsert ch (ceilIdx s.child) (.comp c)),
        child := s.child + 2 }) ∧
    (∀ p b, s.block = some (p, b) → c.isLeaf = false →
      addComponent c s = { s with
        expression := modifyBlockAt s.expression p b
          (fun ch => jsInsert ch (ceilIdx s.child) (.comp c)),
        component := some (.sub p b (ceilIdx s.child).toNat),
        block := some (.sub p b (ceilIdx s.child).toNat, 0),
        child := -1 } ∧
      getCompAt (addComponent c s).expression (.sub p b (ceilIdx s.child).toNat) =
        some c) := by
  obtain ⟨e, co, bl, pos, chd, lx⟩ := s
  refine ⟨?_, ?_, ?_, ?_⟩
  · intro hb hl
    simp only at hb
    subst hb
    obtain ⟨hco, hwe, hodd, hge, hle, hch⟩ := wfState_block_none hw rfl
    simp only at hco hch
    subst hco
    subst hch
    simp only at hodd hge hle
    have hceil : ceilIdx pos = (pos + 1) / 2 := rfl
    rcases c with ld | ch0 | ⟨k, col, bs⟩
    · show CursorState.mk (jsInsert e (ceilIdx pos) (.symbol ld)) none none
          (2 * ceilIdx pos + 1) (-1) lx =
        CursorState.mk (jsInsert e (ceilIdx pos) (.symbol ld)) none none (pos + 2) (-1) lx
      congr 1
      omega
    · show CursorState.mk (jsInsert e (ceilIdx pos) (.textC ch0)) none none
          (2 * ceilIdx pos + 1) (-1) lx =
        CursorState.mk (jsInsert e (ceilIdx pos) (.textC ch0)) none none (pos + 2) (-1) lx
      congr 1
      omega
    · simp [Component.isLeaf] at hl
  · intro hb hl
    simp only at hb
    subst hb
    obtain ⟨hco, hwe, hodd, hge, hle, hch⟩ := wfState_block_none hw rfl
    simp only at hco hch hodd hge hle hwe
    subst hco
    subst hch
    rcases c with ld | ch0 | ⟨k, col, bs⟩
    · simp [Component.isLeaf] at hl
    · simp [Component.isLeaf] at hl
    · have hceil : ceilIdx pos = (pos + 1) / 2 := rfl
      have hiN : jsIdx e.length (ceilIdx pos) = (ceilIdx pos).toNat :=
        jsIdx_of_bounds e.length (ceilIdx pos) (by omega) (by omega)
      constructor
      · show CursorState.mk _
            (some (.top (jsIdx e.length (ceilIdx pos))))
            (some (.top (jsIdx e.length (ceilIdx pos)), 0)) _ _ _ = _
        rw [hiN]
      · show (jsInsert e (ceilIdx pos) _)[(ceilIdx pos).toNat]? = _
        rw [← hiN]
        exact getElem_jsInsert_self e (ceilIdx pos) _
  · intro p b hb hl
    simp only at hb
    subst hb
    obtain ⟨hco, hwe, hr⟩ := wfState_block_some hw rfl
    simp only at hco
    subst hco
    rcases c with ld | ch0 | ⟨k, col, bs⟩
    · rfl
    · rfl
    · simp [Component.isLeaf] at hl
  · intro p b hb hl
    simp only at hb
    subst hb
    obtain ⟨hco, hwe, hr⟩ := wfState_block_some hw rfl
    simp only at hco hwe
    subst hco
    obtain ⟨k, col, bs, ch, hq, hbs, hodd, hge, hle, hposx⟩ := refsWF_elim hr
    simp only at hq hbs hodd hge hle hposx
    have hget : getBlockAt e p b = some ch := getBlockAt_of_comp hq hbs
    have hgetD : (getBlockAt e p b).getD [] = ch := by rw [hget]; rfl
    have hj : jsIdx ((getBlockAt e p b).getD []).length (ceilIdx chd) =
        (ceilIdx chd).toNat := by
      rw [hgetD]
      exact jsIdx_of_bounds ch.length (ceilIdx chd)
        (by show 0 ≤ (chd + 1) / 2; omega)
        (by show (chd + 1) / 2 ≤ _; omega)
    rcases c with ld | ch0 | ⟨k2, col2, bs2⟩
    · simp [Component.isLeaf] at hl
    · simp [Component.isLeaf] at hl
    · constructor
      · show CursorState.mk _
            (some (.sub p b (jsIdx ((getBlockAt e p b).getD []).length (ceilIdx chd))))
            (some (.sub p b (jsIdx ((getBlockAt e p b).getD []).length (ceilIdx chd)), 0))
            _ _ _ = _
        rw [hj]
      · have h1 := getCompAt_modifyBlockAt_self b
          (fun ch => jsInsert ch (ceilIdx chd) (.comp (.container k2 col2 bs2))) hq
        have h2 := blocks_modifyBlk_same (Component.container k col bs) b
          (fun ch => jsInsert ch (ceilIdx chd) (.comp (.container k2 col2 bs2))) ch hbs
        have hj2 : jsIdx ch.length (ceilIdx chd) = (ceilIdx chd).toNat :=
          jsIdx_of_bounds ch.length (ceilIdx chd)
            (by show 0 ≤ (chd + 1) / 2; omega)
            (by show (chd + 1) / 2 ≤ _; omega)
        have h3 : (jsInsert ch (ceilIdx chd)
            (Child.comp (.container k2 col2 bs2)))[(ceilIdx chd).toNat]? =
            some (.comp (.container k2 col2 bs2)) := by
          rw [← hj2]
          exact getElem_jsInsert_self ch (ceilIdx chd) _
        show getCompAt (addComponent (.container k2 col2 bs2)
            ⟨e, some p, some (p, b), pos, chd, lx⟩).expression
            (.sub p b (ceilIdx chd).toNat) = _
        have hres : (addComponent (.container k2 col2 bs2)
            ⟨e, some p, some (p, b), pos, chd, lx⟩).expression =
            modifyBlockAt e p b
              (fun ch => jsInsert ch (ceilIdx chd) (.comp (.container k2 col2 bs2))) := rfl
        rw [hres]
        simp only [getCompAt, h1, h2, h3]


/-- C4 witness: the leaf clause instantiated at the initial state with a
symbol component. -/
theorem C4_witness :
    addComponent (.symbol "\\alpha") initialCursor =
      { initialCursor with
        expression := jsInsert initialCursor.expression
          (ceilIdx initialCursor.position) (.symbol "\\alpha"),
        position := initialCursor.position + 2, child := -1 } :=
  (C4_addComponent_spec (.symbol "\\alpha") initialCursor (by decide) rfl).1 rfl rfl

/-- C5 (counterexample).  Reachable state: an outer square root whose block
holds one inner square root containing the text leaf `x`, cursor resting in
the outer block just after the inner root (built by `addComponent`,
`addComponent`, `addText`, `seekRight`).  A single `backspace` removes the
inner root — a non-empty non-leaf Component — outright, refuting "no single
deleteBackward call ever removes a non-empty non-leaf Component". -/
theorem C5_counterexample :
    Reachable (seekRight (addText "x" (addComponent (newSqrt "b")
      (addComponent (newSqrt "a") initialCursor)))) ∧
    getBlockAt (seekRight (addText "x" (addComponent (newSqrt "b")
        (addComponent (newSqrt "a") initialCursor)))).expression (.top 0) 0 =
      some [.comp (.container .sqrt "b" [.blk [.comp (.textC [.str "x"])]])] ∧
    (Component.container .sqrt "b" [.blk [.comp (.textC [.str "x"])]]).isLeaf = false ∧
    (Component.container .sqrt "b" [.blk [.comp (.textC [.str "x"])]]).isEmptyC = false ∧
    getBlockAt (backspace (seekRight (addText "x" (addComponent (newSqrt "b")
        (addComponent (newSqrt "a") initialCursor))))).expression (.top 0) 0 =
      some [] := by
  refine ⟨?_, by rfl, by rfl, by rfl, by rfl⟩
  exact Reachable.right (Reachable.text "x" (Reachable.comp (newSqrt "b") rfl
    (Reachable.comp (newSqrt "a") rfl Reachable.init)))

/-- C5 (amended). At top level (`block === null`), a single `backspace` never
removes a non-leaf Component: if the element immediately left of the cursor
is a non-leaf container, the tree is unchanged and the cursor enters that
container at its rightmost address (last Block, child = length - 0.5); if
the left element is a leaf, exactly that one leaf is removed.  (Inside a
block, however, a single backspace can remove a non-empty container, as the
counterexample shows — the original claim's general clause fails there.) -/
theorem C5_backspace_top (s : CursorState) (hw : wfState s = true)
    (hb : s.block = none) :
    (∀ k col bs, idxGet s.expression (floorIdx s.position) =
        some (.container k col bs) →
      (backspace s).expression = s.expression ∧
      (backspace s).component = some (.top (floorIdx s.position).toNat) ∧
      (backspace s).block = some (.top (floorIdx s.position).toNat, bs.length - 1) ∧
      (backspace s).child =
        2 * (((bs.getD (bs.length - 1) (.blk [])).childrenOf.length : Nat) : Int) - 1 ∧
      (backspace s).position = 2 * floorIdx s.position) ∧
    (∀ prev, idxGet s.expression (floorIdx s.position) = some prev →
        prev.isLeaf = true →
      (backspace s).expression =
        jsRemove s.expression (((floorIdx s.position).toNat : Nat) : Int) ∧
      (backspace s).block = none ∧ (backspace s).component = none ∧
      (backspace s).position = 2 * floorIdx s.position - 1) := by
  obtain ⟨e, co, bl, pos, chd, lx⟩ := s
  simp only at hb
  subst hb
  obtain ⟨hco, hwe, hodd, hge, hle, hch⟩ := wfState_block_none hw rfl
  simp only at hco hch hodd hge hle hwe
  subst hco
  subst hch
  constructor
  · intro k col bs hget
    simp only at hget
    have hbounds := idxGet_bounds hget
    have hfl : floorIdx pos = pos / 2 := rfl
    have hlen : ¬ (e.length = 0) := by omega
    have hpos1 : ¬ (pos = -1) := by omega
    rw [backspace_top_container hlen hpos1 hget]
    exact ⟨rfl, rfl, rfl, rfl, rfl⟩
  · intro prev hget hleaf
    simp only at hget
    have hbounds := idxGet_bounds hget
    have hfl : floorIdx pos = pos / 2 := rfl
    have hlen : ¬ (e.length = 0) := by omega
    have hpos1 : ¬ (pos = -1) := by omega
    rw [backspace_top_leaf hlen hpos1 hget hleaf,
      removeComponent_top_leaf hget hleaf]
    exact ⟨rfl, rfl, rfl, rfl⟩

/-- C5 witness: the container clause at a concrete state (cursor just right
of a top-level square root). -/
theorem C5_witness :
    (backspace (seekRight (addComponent (newSqrt "red") initialCursor))).expression =
      (seekRight (addComponent (newSqrt "red") initialCursor)).expression ∧
    (backspace (seekRight (addComponent (newSqrt "red") initialCursor))).component =
      some (.top (floorIdx (seekRight (addComponent (newSqrt "red")
        initialCursor)).position).toNat) ∧
    (backspace (seekRight (addComponent (newSqrt "red") initialCursor))).block =
      some (.top (floorIdx (seekRight (addComponent (newSqrt "red")
        initialCursor)).position).toNat, [Slot.blk []].length - 1) ∧
    (backspace (seekRight (addComponent (newSqrt "red") initialCursor))).child =
      2 * ((([Slot.blk []].getD ([Slot.blk []].length - 1)
        (.blk [])).childrenOf.length : Nat) : Int) - 1 ∧
    (backspace (seekRight (addComponent (newSqrt "red") initialCursor))).position =
      2 * floorIdx (seekRight (addComponent (newSqrt "red") initialCursor)).position :=
  (C5_backspace_top (seekRight (addComponent (newSqrt "red") initialCursor))
    (by decide) (by decide)).1 .sqrt "red" [Slot.blk []] (by rfl)


/-!  Claim C3: the caret splice in `toDisplayLatex` is undone exactly. -/

lemma setSlotIdx_setSlotIdx (c : Component) (b : Nat) (s1 s2 : Slot) :
    (c.setSlotIdx b s1).setSlotIdx b s2 = c.setSlotIdx b s2 := by
  cases c with
  | symbol l => rfl
  | textC ch => rfl
  | container k col bs =>
      simp only [Component.setSlotIdx, Component.container.injEq, true_and]
      exact List.set_set s1 s2 bs b

lemma setSlotIdx_eq_self (c : Component) (b : Nat) (s : Slot)
    (h : c.blocks[b]? = some s) : c.setSlotIdx b s = c := by
  cases c with
  | symbol l => rfl
  | textC ch => rfl
  | container k col bs =>
      simp only [Component.blocks] at h
      simp only [Component.setSlotIdx, Component.container.injEq, true_and]
      exact list_set_self bs b s h

lemma setSlotAt_restore {e : List Component} {p : CPath} {b : Nat} {c0 : Component}
    {ch : List Child} (s1 : Slot) (hq : getCompAt e p = some c0)
    (hb : c0.blocks[b]? = some (.blk ch)) :
    setSlotAt (setSlotAt e p b s1) p b (.blk ch) = e := by
  simp only [setSlotAt, hq]
  have h1 := getCompAt_setCompAt e p c0 (c0.setSlotIdx b s1) hq
  simp only [h1]
  rw [setSlotIdx_setSlotIdx, setCompAt_setCompAt e p c0 _ _ hq,
    setSlotIdx_eq_self c0 b _ hb]
  exact setCompAt_eq_self e p c0 hq

/-- C3. For every well-formed tree/cursor state, `toDisplayLatex()` leaves
the document observably unchanged: the expression tree (hence every node's
parent relationship, which in this value model is the tree structure itself)
is byte-for-byte the one from before the call, `toLatex()` returns an
identical string before and after, and the cursor's `expression`,
`component`, `block`, `position` and `child` fields are unchanged (only the
memoized `latex` field is updated, which the claim does not constrain). -/
theorem C3_toDisplayLatex_pure (s : CursorState) (hw : wfState s = true) :
    (toDisplayLatex s).2.expression = s.expression ∧
    (toDisplayLatex s).2.component = s.component ∧
    (toDisplayLatex s).2.block = s.block ∧
    (toDisplayLatex s).2.position = s.position ∧
    (toDisplayLatex s).2.child = s.child ∧
    exprLatex (toDisplayLatex s).2.expression = exprLatex s.expression := by
  obtain ⟨e, co, bl, pos, chd, lx⟩ := s
  cases bl with
  | none =>
      obtain ⟨hco, hwe, hodd, hge, hle, hch⟩ := wfState_block_none hw rfl
      simp only at hco hch hodd hge hle
      subst hco
      subst hch
      have hceil : ceilIdx pos = (pos + 1) / 2 := rfl
      have hrem : jsRemove (jsInsert e (ceilIdx pos) (.textC [.str "|"])) (ceilIdx pos) = e :=
        jsRemove_jsInsert e (ceilIdx pos) _ (by omega) (by omega)
      have hexp : (toDisplayLatex ⟨e, none, none, pos, -1, lx⟩).2.expression =
          jsRemove (jsInsert e (ceilIdx pos) (.textC [.str "|"])) (ceilIdx pos) := rfl
      rw [hexp, hrem]
      exact ⟨rfl, rfl, rfl, rfl, rfl, rfl⟩
  | some pb =>
      rcases pb with ⟨p, b⟩
      obtain ⟨hco, hwe, hr⟩ := wfState_block_some hw rfl
      simp only at hco hwe
      subst hco
      obtain ⟨k, col, bs, ch, hq, hbs, hodd, hge, hle, hposx⟩ := refsWF_elim hr
      simp only at hq hbs hodd hge hle hposx
      have hget : getBlockAt e p b = some ch := getBlockAt_of_comp hq hbs
      have hgetD : (getBlockAt e p b).getD [] = ch := by rw [hget]; rfl
      have hceil : ceilIdx chd = (chd + 1) / 2 := rfl
      have hrem : jsRemove (jsInsert ch (ceilIdx chd) (.comp (.textC [.str "|"])))
          (ceilIdx chd) = ch :=
        jsRemove_jsInsert ch (ceilIdx chd) _ (by omega) (by omega)
      have hexp : (toDisplayLatex ⟨e, some p, some (p, b), pos, chd, lx⟩).2.expression =
          setSlotAt (setSlotAt e p b (.framed (.container .frameBox "null"
              [.blk (jsInsert ((getBlockAt e p b).getD []) (ceilIdx chd)
                (.comp (.textC [.str "|"])))])))
            p b (.blk (jsRemove (jsInsert ((getBlockAt e p b).getD []) (ceilIdx chd)
              (.comp (.textC [.str "|"]))) (ceilIdx chd))) := rfl
      rw [hexp, hgetD, hrem]
      rw [setSlotAt_restore _ hq (by simp only [Component.blocks]; exact hbs)]
      exact ⟨rfl, rfl, rfl, rfl, rfl, rfl⟩

/-- C3 witness: the frame property at a concrete state, cursor inside a
fresh square root. -/
theorem C3_witness :
    (toDisplayLatex (addComponent (newSqrt "red") initialCursor)).2.expression =
      (addComponent (newSqrt "red") initialCursor).expression ∧
    (toDisplayLatex (addComponent (newSqrt "red") initialCursor)).2.component =
      (addComponent (newSqrt "red") initialCursor).component ∧
    (toDisplayLatex (addComponent (newSqrt "red") initialCursor)).2.block =
      (addComponent (newSqrt "red") initialCursor).block ∧
    (toDisplayLatex (addComponent (newSqrt "red") initialCursor)).2.position =
      (addComponent (newSqrt "red") initialCursor).position ∧
    (toDisplayLatex (addComponent (newSqrt "red") initialCursor)).2.child =
      (addComponent (newSqrt "red") initialCursor).child ∧
    exprLatex (toDisplayLatex (addComponent (newSqrt "red") initialCursor)).2.expression =
      exprLatex (addComponent (newSqrt "red") initialCursor).expression :=
  C3_toDisplayLatex_pure (addComponent (newSqrt "red") initialCursor) (by decide)


/-!  Claim C2: seekRight/seekLeft round-trips. -/

lemma topIdx_lt_of_get {e : List Component} : ∀ {p : CPath} {c : Component},
    getCompAt e p = some c → p.topIdx < e.length := by
  intro p
  induction p with
  | top i =>
      intro c h
      exact (List.getElem?_eq_some.mp h).1
  | sub q b j ih =>
      intro c h
      obtain ⟨parent, ch, hq, _, _⟩ := getCompAt_sub_inv h
      exact ih hq

lemma roundtrip_RL {s : CursorState} (hw : wfState s = true)
    (hlt : ¬ (s.position ≥ 2 * (s.expression.length : Int) - 1)) :
    seekLeft (seekRight s) = s := by
  obtain ⟨e, co, bl, pos, chd, lx⟩ := s
  simp only at hlt
  cases bl with
  | none =>
      obtain ⟨hco, hwe, hodd, hge, hle, hch⟩ := wfState_block_none hw rfl
      simp only at hco hch hodd hge hle hwe
      subst hco
      subst hch
      have hev : (pos + 1) % 2 = 0 := by omega
      obtain ⟨c, hcg⟩ := idxGet_eq_some e ((pos + 1) / 2) (by omega) (by omega)
      have hca : compAt e (pos + 1) = some c := by rw [compAt_even e _ hev]; exact hcg
      cases hcl : c.isLeaf with
      | true =>
          rw [seekRight_top_leaf hlt hca hcl]
          have hca2 : compAt e (pos + 2 - 1) = some c := by
            have : pos + 2 - 1 = pos + 1 := by omega
            rw [this]
            exact hca
          rw [seekLeft_top_leaf (by omega) hca2 hcl]
          congr 1
          omega
      | false =>
          rw [seekRight_top_container hlt hca hcl]
          rw [seekLeft_exit_top (by omega) rfl]
          congr 1
          omega
  | some pb =>
      rcases pb with ⟨p, b⟩
      obtain ⟨hco, hwe, hr⟩ := wfState_block_some hw rfl
      simp only at hco hwe
      subst hco
      obtain ⟨k, col, bs, ch, hq, hbs, hodd, hge, hle, hposx⟩ := refsWF_elim hr
      simp only at hq hbs hodd hge hle hposx
      have hblk : getBlockAt e p b = some ch := getBlockAt_of_comp hq hbs
      have hblt : b < bs.length := (List.getElem?_eq_some.mp hbs).1
      have htop : p.topIdx < e.length := topIdx_lt_of_get hq
      have hcc : compChildrenWF ch = true := compChildrenWF_of_refs hwe hq hbs
      by_cases hend : chd = 2 * (ch.length : Int) - 1
      · by_cases hlast : b = (Component.container k col bs).blocks.length - 1
        · cases p with
          | top i =>
              rw [seekRight_exit_top hlt hblk hend hq hlast]
              simp only [CPath.topIdx] at hposx htop
              simp only [Component.blocks] at hlast
              have hev : pos % 2 = 0 := by omega
              have hca : compAt e (pos + 1 - 1) = some (.container k col bs) := by
                have h1 : pos + 1 - 1 = pos := by omega
                rw [h1, compAt_even e pos hev]
                have h2 : pos / 2 = (i : Int) := by omega
                rw [h2]
                unfold idxGet
                rw [if_pos (by omega)]
                simpa using hq
              rw [seekLeft_top_container (by omega) hca (by rfl)]
              simp only [Component.blocks]
              have hi : ((pos + 1 - 1) / 2).toNat = i := by omega
              have hgd : ((bs.getD (bs.length - 1) (.blk [])).childrenOf) = ch := by
                rw [← hlast]
                rw [getD_of_getElem bs b (.blk []) _ hbs]
                rfl
              rw [hi, hgd, ← hlast, ← hend]
              rw [show pos + 1 - 1 = pos from by omega]
          | sub q2 b2 j2 =>
              rw [seekRight_exit_sub hlt hblk hend hq hlast]
              simp only [Component.blocks] at hlast
              obtain ⟨k2, col2, bs2, ch2, hq2, hbs2, hj2⟩ :=
                parent_container_of_sub hwe hq
              have hj2lt : j2 < ch2.length := (List.getElem?_eq_some.mp hj2).1
              have hblk2 : getBlockAt e q2 b2 = some ch2 := getBlockAt_of_comp hq2 hbs2
              have hfl : floorIdx (2 * ((j2 : Nat) : Int) + 1) = (j2 : Int) := by
                show (2 * ((j2 : Nat) : Int) + 1) / 2 = _
                omega
              have hprev : idxGet ch2 (floorIdx (2 * ((j2 : Nat) : Int) + 1)) =
                  some (.comp (.container k col bs)) := by
                rw [hfl]
                unfold idxGet
                rw [if_pos (by omega)]
                simpa using hj2
              rw [seekLeft_enter_child (by omega) (by omega) hblk2 hprev (by rfl)]
              simp only [Component.blocks]
              have hjf : (floorIdx (2 * ((j2 : Nat) : Int) + 1)).toNat = j2 := by
                rw [hfl]
                omega
              have hgd : ((bs.getD (bs.length - 1) (.blk [])).childrenOf) = ch := by
                rw [← hlast]
                rw [getD_of_getElem bs b (.blk []) _ hbs]
                rfl
              rw [hjf, hgd, ← hlast, ← hend]
        · rw [seekRight_next_block hlt hblk hend hq hlast]
          rw [seekLeft_prev_block (by omega) rfl (by omega) hq]
          have hgd : (((Component.container k col bs).blocks.getD (b + 1 - 1)
              (.blk [])).childrenOf) = ch := by
            simp only [Component.blocks]
            have h1 : b + 1 - 1 = b := by omega
            rw [h1, getD_of_getElem bs b (.blk []) _ hbs]
            rfl
          rw [hgd, ← hend]
          rw [show b + 1 - 1 = b from by omega]
      · obtain ⟨x, hx⟩ := idxGet_eq_some ch (ceilIdx chd)
          (by show 0 ≤ (chd + 1) / 2; omega) (by show (chd + 1) / 2 < _; omega)
        obtain ⟨c, rfl, hcwf⟩ := child_comp_of_wf hcc hx
        cases hcl : c.isLeaf with
        | true =>
            rw [seekRight_skip_leaf hlt hblk hend hx hcl]
            have hprev : idxGet ch (floorIdx (chd + 2)) = some (.comp c) := by
              have h1 : floorIdx (chd + 2) = ceilIdx chd := by
                show (chd + 2) / 2 = (chd + 1) / 2
                omega
              rw [h1]
              exact hx
            rw [seekLeft_skip_leaf (by omega) (by omega) hblk hprev hcl]
            rw [show chd + 2 - 2 = chd from by omega]
        | false =>
            rw [seekRight_enter_child hlt hblk hend hx hcl]
            rw [seekLeft_exit_sub (by omega) rfl]
            have hcj : 2 * (((ceilIdx chd).toNat : Nat) : Int) - 1 = chd := by
              have hceil : ceilIdx chd = (chd + 1) / 2 := rfl
              omega
            rw [hcj]
lemma getCompAt_sub_intro {e : List Component} {p : CPath} {b j : Nat}
    {k : CKind} {col : String} {bs : List Slot} {ch : List Child} {c : Component}
    (hq : getCompAt e p = some (.container k col bs))
    (hb : bs[b]? = some (.blk ch)) (hj : ch[j]? = some (.comp c)) :
    getCompAt e (.sub p b j) = some c := by
  simp only [getCompAt, hq, Component.blocks, hb, hj]

lemma roundtrip_LR {s : CursorState} (hw : wfState s = true)
    (hgt : ¬ (s.position ≤ -1)) :
    seekRight (seekLeft s) = s := by
  obtain ⟨e, co, bl, pos, chd, lx⟩ := s
  simp only at hgt
  cases bl with
  | none =>
      obtain ⟨hco, hwe, hodd, hge, hle, hch⟩ := wfState_block_none hw rfl
      simp only at hco hch hodd hge hle hwe
      subst hco
      subst hch
      have hev : (pos - 1) % 2 = 0 := by omega
      obtain ⟨c, hcg⟩ := idxGet_eq_some e ((pos - 1) / 2) (by omega) (by omega)
      have hca : compAt e (pos - 1) = some c := by rw [compAt_even e _ hev]; exact hcg
      cases hcl : c.isLeaf with
      | true =>
          rw [seekLeft_top_leaf hgt hca hcl]
          have hca2 : compAt e (pos - 2 + 1) = some c := by
            rw [show pos - 2 + 1 = pos - 1 from by omega]
            exact hca
          rw [seekRight_top_leaf (by omega) hca2 hcl]
          congr 1
          omega
      | false =>
          rw [seekLeft_top_container hgt hca hcl]
          rcases c with ld | ch0 | ⟨k, col, bs⟩
          · simp [Component.isLeaf] at hcl
          · simp [Component.isLeaf] at hcl
          · have hqt : getCompAt e (.top ((pos - 1) / 2).toNat) =
                some (.container k col bs) := idxGet_getElem hcg
            have hcw := wfc_of_getCompAt hwe hqt
            have hlen : 0 < bs.length := ((wfc_container_iff k col bs).mp hcw).1
            obtain ⟨ch2, hbs2, hcc2⟩ :=
              last_block_of_container hcw (bs.length - 1) (by omega)
            simp only [Component.blocks]
            have hgd : ((bs.getD (bs.length - 1) (.blk [])).childrenOf) = ch2 := by
              rw [getD_of_getElem bs (bs.length - 1) (.blk []) _ hbs2]
              rfl
            rw [hgd]
            have hblk2 : getBlockAt e (.top ((pos - 1) / 2).toNat) (bs.length - 1) =
                some ch2 := getBlockAt_of_comp hqt hbs2
            rw [seekRight_exit_top (by omega) hblk2 rfl hqt (by rfl)]
            congr 1
            omega
  | some pb =>
      rcases pb with ⟨p, b⟩
      obtain ⟨hco, hwe, hr⟩ := wfState_block_some hw rfl
      simp only at hco hwe
      subst hco
      obtain ⟨k, col, bs, ch, hq, hbs, hodd, hge, hle, hposx⟩ := refsWF_elim hr
      simp only at hq hbs hodd hge hle hposx
      have hblk : getBlockAt e p b = some ch := getBlockAt_of_comp hq hbs
      have hblt : b < bs.length := (List.getElem?_eq_some.mp hbs).1
      have htop : p.topIdx < e.length := topIdx_lt_of_get hq
      have hcc : compChildrenWF ch = true := compChildrenWF_of_refs hwe hq hbs
      have hcw := wfc_of_getCompAt hwe hq
      by_cases hstart : chd = -1
      · subst hstart
        by_cases hb0 : b = 0
        · subst hb0
          cases p with
          | top i =>
              rw [seekLeft_exit_top hgt rfl]
              simp only [CPath.topIdx] at hposx htop
              have hca : compAt e (pos - 1 + 1) = some (.container k col bs) := by
                rw [show pos - 1 + 1 = pos from by omega,
                  compAt_even e pos (by omega)]
                rw [show pos / 2 = (i : Int) from by omega]
                unfold idxGet
                rw [if_pos (by omega)]
                simpa using hq
              rw [seekRight_top_container (by omega) hca (by rfl)]
              have hi : ((pos - 1 + 1) / 2).toNat = i := by omega
              rw [hi, show pos - 1 + 1 = pos from by omega]
          | sub q2 b2 j2 =>
              rw [seekLeft_exit_sub hgt rfl]
              obtain ⟨k2, col2, bs2, ch2, hq2, hbs2, hj2⟩ :=
                parent_container_of_sub hwe hq
              have hj2lt : j2 < ch2.length := (List.getElem?_eq_some.mp hj2).1
              have hblk2 : getBlockAt e q2 b2 = some ch2 := getBlockAt_of_comp hq2 hbs2
              have hceil : ceilIdx (2 * ((j2 : Nat) : Int) - 1) = (j2 : Int) := by
                show (2 * ((j2 : Nat) : Int) - 1 + 1) / 2 = _
                omega
              have hnext : idxGet ch2 (ceilIdx (2 * ((j2 : Nat) : Int) - 1)) =
                  some (.comp (.container k col bs)) := by
                rw [hceil]
                unfold idxGet
                rw [if_pos (by omega)]
                simpa using hj2
              rw [seekRight_enter_child (by omega) hblk2 (by omega) hnext (by rfl)]
              have hj2n : (ceilIdx (2 * ((j2 : Nat) : Int) - 1)).toNat = j2 := by
                rw [hceil]
                omega
              rw [hj2n]
        · rw [seekLeft_prev_block hgt rfl hb0 hq]
          obtain ⟨ch2, hbs2, hcc2⟩ := last_block_of_container hcw (b - 1) (by omega)
          have hgd : (((Component.container k col bs).blocks.getD (b - 1)
              (.blk [])).childrenOf) = ch2 := by
            show (bs.getD (b - 1) (.blk [])).childrenOf = ch2
            rw [getD_of_getElem bs (b - 1) (.blk []) _ hbs2]
            rfl
          rw [hgd]
          have hblk2 : getBlockAt e p (b - 1) = some ch2 := getBlockAt_of_comp hq hbs2
          rw [seekRight_next_block (by omega) hblk2 rfl hq
            (by simp only [Component.blocks]; omega)]
          rw [show b - 1 + 1 = b from by omega]
      · have hfl : floorIdx chd = chd / 2 := rfl
        obtain ⟨x, hx⟩ := idxGet_eq_some ch (floorIdx chd)
          (by rw [hfl]; omega) (by rw [hfl]; omega)
        obtain ⟨c, rfl, hcwf⟩ := child_comp_of_wf hcc hx
        cases hcl : c.isLeaf with
        | true =>
            rw [seekLeft_skip_leaf hgt hstart hblk hx hcl]
            have hnext : idxGet ch (ceilIdx (chd - 2)) = some (.comp c) := by
              rw [show ceilIdx (chd - 2) = floorIdx chd from by
                show (chd - 2 + 1) / 2 = chd / 2
                omega]
              exact hx
            rw [seekRight_skip_leaf (by omega) hblk (by omega) hnext hcl]
            rw [show chd - 2 + 2 = chd from by omega]
        | false =>
            rw [seekLeft_enter_child hgt hstart hblk hx hcl]
            rcases c with ld | ch0 | ⟨k3, col3, bs3⟩
            · simp [Component.isLeaf] at hcl
            · simp [Component.isLeaf] at hcl
            · have hlen3 : 0 < bs3.length :=
                ((wfc_container_iff k3 col3 bs3).mp hcwf).1
              obtain ⟨ch3, hbs3, hcc3⟩ :=
                last_block_of_container hcwf (bs3.length - 1) (by omega)
              simp only [Component.blocks]
              have hgd : ((bs3.getD (bs3.length - 1) (.blk [])).childrenOf) = ch3 := by
                rw [getD_of_getElem bs3 (bs3.length - 1) (.blk []) _ hbs3]
                rfl
              rw [hgd]
              have hsub : getCompAt e (.sub p b (floorIdx chd).toNat) =
                  some (.container k3 col3 bs3) :=
                getCompAt_sub_intro hq hbs (idxGet_getElem hx)
              have hblk3 : getBlockAt e (.sub p b (floorIdx chd).toNat)
                  (bs3.length - 1) = some ch3 := getBlockAt_of_comp hsub hbs3
              rw [seekRight_exit_sub (by omega) hblk3 rfl hsub (by rfl)]
              have hcj : 2 * (((floorIdx chd).toNat : Nat) : Int) + 1 = chd := by
                rw [hfl]
                omega
              rw [hcj]
lemma seekRight_expression (s : CursorState) :
    (seekRight s).expression = s.expression := by
  obtain ⟨e, co, bl, pos, chd, lx⟩ := s
  simp only [seekRight]
  repeat' split
  all_goals rfl

lemma seekLeft_expression (s : CursorState) :
    (seekLeft s).expression = s.expression := by
  obtain ⟨e, co, bl, pos, chd, lx⟩ := s
  simp only [seekLeft]
  repeat' split
  all_goals rfl

/-- C2 counterexample. The reachable state holding the single text leaf
"a" sits at the right document boundary (position 0.5, doubled: 1). There
the FIRST call of the pair, `seekRight`, is the no-op, and the second
call, `seekLeft`, moves the cursor (to -0.5, doubled: -1): the pair does
not restore the original address, and the second call is not a no-op. -/
theorem C2_counterexample :
    Reachable (addText "a" initialCursor) ∧
    seekRight (addText "a" initialCursor) = addText "a" initialCursor ∧
    (seekLeft (seekRight (addText "a" initialCursor))).position ≠
      (addText "a" initialCursor).position ∧
    (seekLeft (addText "a" initialCursor)).position ≠
      (addText "a" initialCursor).position :=
  ⟨Reachable.text "a" Reachable.init, rfl, by decide, by decide⟩

/-- C2 (amended). For every reachable cursor state, `seekRight` and
`seekLeft` never mutate the Expression tree; at the right document
boundary `seekRight` itself (the first call of the pair) is a no-op, and
symmetrically `seekLeft` at the left boundary; away from the respective
boundary each round-trip `seekLeft` after `seekRight`, and `seekRight`
after `seekLeft`, restores the entire cursor state (position, child,
block, component and the expression). -/
theorem C2_seek_roundtrip {s : CursorState} (h : Reachable s) :
    (seekRight s).expression = s.expression ∧
    (seekLeft s).expression = s.expression ∧
    (s.position ≥ 2 * (s.expression.length : Int) - 1 → seekRight s = s) ∧
    (s.position ≤ -1 → seekLeft s = s) ∧
    (¬ (s.position ≥ 2 * (s.expression.length : Int) - 1) →
      seekLeft (seekRight s) = s) ∧
    (¬ (s.position ≤ -1) → seekRight (seekLeft s) = s) := by
  have hw := wf_reachable h
  exact ⟨seekRight_expression s, seekLeft_expression s,
    fun hb => seekRight_noop hb, fun hb => seekLeft_noop hb,
    fun hb => roundtrip_RL hw hb, fun hb => roundtrip_LR hw hb⟩

/-- C2 witness: the round-trip property instantiated at the reachable
state holding one square root, where neither boundary case applies. -/
theorem C2_witness :
    Reachable (addComponent (newSqrt "red") initialCursor) ∧
    ((seekRight (addComponent (newSqrt "red") initialCursor)).expression =
      (addComponent (newSqrt "red") initialCursor).expression ∧
    (seekLeft (addComponent (newSqrt "red") initialCursor)).expression =
      (addComponent (newSqrt "red") initialCursor).expression ∧
    ((addComponent (newSqrt "red") initialCursor).position ≥
        2 * ((addComponent (newSqrt "red") initialCursor).expression.length : Int) - 1 →
      seekRight (addComponent (newSqrt "red") initialCursor) =
        addComponent (newSqrt "red") initialCursor) ∧
    ((addComponent (newSqrt "red") initialCursor).position ≤ -1 →
      seekLeft (addComponent (newSqrt "red") initialCursor) =
        addComponent (newSqrt "red") initialCursor) ∧
    (¬ ((addComponent (newSqrt "red") initialCursor).position ≥
        2 * ((addComponent (newSqrt "red") initialCursor).expression.length : Int) - 1) →
      seekLeft (seekRight (addComponent (newSqrt "red") initialCursor)) =
        addComponent (newSqrt "red") initialCursor) ∧
    (¬ ((addComponent (newSqrt "red") initialCursor).position ≤ -1) →
      seekRight (seekLeft (addComponent (newSqrt "red") initialCursor)) =
        addComponent (newSqrt "red") initialCursor)) :=
  ⟨Reachable.comp (newSqrt "red") (by decide) Reachable.init,
   C2_seek_roundtrip (Reachable.comp (newSqrt "red") (by decide) Reachable.init)⟩
end Mjx


